import Mathlib

/-!
Verification development for the cache-aside subsystem of the
collaborative-playlist backend (services/cacheService.js,
middleware/cache.js, routes/cache.js).

The JavaScript source is shallowly embedded: the Redis store is a list of
entries, asynchronous store failures are made explicit as boolean
parameters (`fail` means the awaited client call rejects), and each
CacheService method becomes a pure function from the service state to a
(result, new state) pair.
-/

namespace CollabPlaylist

/-! ## JSON value model

Values passed through `JSON.stringify` / `JSON.parse` by the service.
-/

/-- Model of a JavaScript JSON value. -/
inductive JVal where
  | jnull : JVal
  | jbool (b : Bool) : JVal
  | jnum (n : Int) : JVal
  | jstr (s : String) : JVal
  | jarr (xs : List JVal) : JVal
  | jobj (fs : List (String × JVal)) : JVal

/-- Hexadecimal digit used by JSON unicode escapes. -/
def hexDigit (n : Nat) : Char :=
  if n < 10 then Char.ofNat (48 + n) else Char.ofNat (87 + n)

/-- Escaping of a single character inside a JSON string literal,
as performed by `JSON.stringify`. -/
def jsonEscapeChar (c : Char) : List Char :=
  if c = '"' then ['\\', '"']
  else if c = '\\' then ['\\', '\\']
  else if c = '\n' then ['\\', 'n']
  else if c = '\r' then ['\\', 'r']
  else if c = '\t' then ['\\', 't']
  else if c = Char.ofNat 8 then ['\\', 'b']
  else if c = Char.ofNat 12 then ['\\', 'f']
  else if c.toNat < 32 then
    ['\\', 'u', '0', '0', hexDigit (c.toNat / 16), hexDigit (c.toNat % 16)]
  else [c]

/-- Escaping of a whole string body for a JSON string literal. -/
def jsonEscape (cs : List Char) : List Char :=
  cs.flatMap jsonEscapeChar

/-- Decimal digits of `n`, most significant first, by structural
recursion on a fuel argument (any fuel above `n` suffices). -/
def natToDigits : Nat → Nat → List Char
  | 0, _ => []
  | f + 1, n =>
    if n < 10 then [Char.ofNat (48 + n)]
    else natToDigits f (n / 10) ++ [Char.ofNat (48 + n % 10)]

/-- Decimal rendering of an integer, as produced for integral numbers by
`JSON.stringify`. -/
def intRepr (n : Int) : String :=
  if n < 0 then String.mk ('-' :: natToDigits (n.natAbs + 1) n.natAbs)
  else String.mk (natToDigits (n.toNat + 1) n.toNat)

mutual

/-- Model of `JSON.stringify` on JSON values. -/
def JVal.stringify : JVal → String
  | JVal.jnull => "null"
  | JVal.jbool true => "true"
  | JVal.jbool false => "false"
  | JVal.jnum n => intRepr n
  | JVal.jstr s => "\"" ++ String.mk (jsonEscape s.data) ++ "\""
  | JVal.jarr xs => "[" ++ stringifyList xs ++ "]"
  | JVal.jobj fs => "\x7b" ++ stringifyFields fs ++ "\x7d"

/-- Comma-separated serialization of a JSON array body. -/
def stringifyList : List JVal → String
  | [] => ""
  | [v] => JVal.stringify v
  | v :: w :: rest => JVal.stringify v ++ "," ++ stringifyList (w :: rest)

/-- Comma-separated serialization of a JSON object body. -/
def stringifyFields : List (String × JVal) → String
  | [] => ""
  | [(k, v)] => "\"" ++ String.mk (jsonEscape k.data) ++ "\":" ++ JVal.stringify v
  | (k, v) :: f :: rest =>
      "\"" ++ String.mk (jsonEscape k.data) ++ "\":" ++ JVal.stringify v ++ "," ++
        stringifyFields (f :: rest)

end

/-- Numeric value of a string of decimal digits. -/
def digitsToNat (cs : List Char) : Nat :=
  cs.foldl (fun n c => n * 10 + (c.toNat - 48)) 0

/-- JSON whitespace. -/
def isWs (c : Char) : Bool :=
  c = ' ' || c = '\t' || c = '\n' || c = '\r'

/-- Skip leading JSON whitespace. -/
def skipWs : List Char → List Char
  | [] => []
  | c :: cs => if isWs c then skipWs cs else c :: cs

/-- Longest digit run at the front of the input, and the remainder. -/
def spanDigits : List Char → List Char × List Char
  | [] => ([], [])
  | c :: cs =>
      if c.isDigit then
        let p := spanDigits cs
        (c :: p.1, p.2)
      else ([], c :: cs)

/-- Value of one hexadecimal digit. -/
def hexVal (c : Char) : Option Nat :=
  if '0' ≤ c ∧ c ≤ '9' then some (c.toNat - 48)
  else if 'a' ≤ c ∧ c ≤ 'f' then some (c.toNat - 87)
  else if 'A' ≤ c ∧ c ≤ 'F' then some (c.toNat - 70)
  else none

/-- JSON string-body parser (after the opening quote): returns the
decoded content and the input remaining after the closing quote.
Handles the escapes `\" \\ \/ \n \r \t \b \f \uXXXX` and rejects
unescaped control characters, as `JSON.parse` does. -/
def parseStr : Nat → List Char → Option (List Char × List Char)
  | 0, _ => none
  | f + 1, cs =>
    match cs with
    | [] => none
    | c :: cs1 =>
      if c = '"' then some ([], cs1)
      else if c = '\\' then
        match cs1 with
        | [] => none
        | e :: cs2 =>
          if e = '"' then (parseStr f cs2).map (fun p => ('"' :: p.1, p.2))
          else if e = '\\' then (parseStr f cs2).map (fun p => ('\\' :: p.1, p.2))
          else if e = '/' then (parseStr f cs2).map (fun p => ('/' :: p.1, p.2))
          else if e = 'n' then (parseStr f cs2).map (fun p => ('\n' :: p.1, p.2))
          else if e = 'r' then (parseStr f cs2).map (fun p => ('\r' :: p.1, p.2))
          else if e = 't' then (parseStr f cs2).map (fun p => ('\t' :: p.1, p.2))
          else if e = 'b' then (parseStr f cs2).map (fun p => (Char.ofNat 8 :: p.1, p.2))
          else if e = 'f' then (parseStr f cs2).map (fun p => (Char.ofNat 12 :: p.1, p.2))
          else if e = 'u' then
            match cs2 with
            | h1 :: h2 :: h3 :: h4 :: cs3 =>
              match hexVal h1, hexVal h2, hexVal h3, hexVal h4 with
              | some v1, some v2, some v3, some v4 =>
                  (parseStr f cs3).map
                    (fun p =>
                      (Char.ofNat (((v1 * 16 + v2) * 16 + v3) * 16 + v4) :: p.1, p.2))
              | _, _, _, _ => none
            | _ => none
          else none
      else if c.toNat < 32 then none
      else (parseStr f cs1).map (fun p => (c :: p.1, p.2))

mutual

/-- Recursive-descent JSON value parser: one value and the remaining
input.  Structural recursion on fuel; `JSONparse` below supplies enough
fuel for any input.  Numbers are restricted to (optionally negative)
integers without leading zeros — JSON fraction/exponent forms denote
floating-point values, which lie outside this embedding. -/
def parseVal : Nat → List Char → Option (JVal × List Char)
  | 0, _ => none
  | f + 1, cs0 =>
    match skipWs cs0 with
    | [] => none
    | c :: cs1 =>
      if c = 'n' then
        match cs1 with
        | 'u' :: 'l' :: 'l' :: rest => some (JVal.jnull, rest)
        | _ => none
      else if c = 't' then
        match cs1 with
        | 'r' :: 'u' :: 'e' :: rest => some (JVal.jbool true, rest)
        | _ => none
      else if c = 'f' then
        match cs1 with
        | 'a' :: 'l' :: 's' :: 'e' :: rest => some (JVal.jbool false, rest)
        | _ => none
      else if c = '"' then
        (parseStr f cs1).map (fun p => (JVal.jstr (String.mk p.1), p.2))
      else if c = '-' then
        let p := spanDigits cs1
        if p.1 = [] then none
        else if 1 < p.1.length ∧ p.1.head? = some '0' then none
        else some (JVal.jnum (-(digitsToNat p.1 : Int)), p.2)
      else if c.isDigit then
        let p := spanDigits (c :: cs1)
        if 1 < p.1.length ∧ p.1.head? = some '0' then none
        else some (JVal.jnum ((digitsToNat p.1 : Int)), p.2)
      else if c = '[' then
        match cs1 with
        | [] => none
        | d :: ds =>
            if d = ']' then some (JVal.jarr [], ds)
            else (parseElems f (d :: ds)).map (fun p => (JVal.jarr p.1, p.2))
      else if c = '\x7b' then
        match cs1 with
        | [] => none
        | d :: ds =>
            if d = '\x7d' then some (JVal.jobj [], ds)
            else (parseFields f (d :: ds)).map (fun p => (JVal.jobj p.1, p.2))
      else none

/-- Comma-separated array elements up to and including the closing
bracket. -/
def parseElems : Nat → List Char → Option (List JVal × List Char)
  | 0, _ => none
  | f + 1, cs =>
    match parseVal f cs with
    | none => none
    | some (v, rest) =>
      match skipWs rest with
      | ',' :: rest2 => (parseElems f rest2).map (fun p => (v :: p.1, p.2))
      | ']' :: rest2 => some ([v], rest2)
      | _ => none

/-- Comma-separated object members up to and including the closing
brace. -/
def parseFields : Nat → List Char → Option (List (String × JVal) × List Char)
  | 0, _ => none
  | f + 1, cs =>
    match skipWs cs with
    | '"' :: cs1 =>
      match parseStr f cs1 with
      | none => none
      | some (k, rest1) =>
        match skipWs rest1 with
        | ':' :: rest2 =>
          match parseVal f rest2 with
          | none => none
          | some (v, rest3) =>
            match skipWs rest3 with
            | ',' :: rest4 =>
                (parseFields f rest4).map (fun p => ((String.mk k, v) :: p.1, p.2))
            | '\x7d' :: rest4 => some ([(String.mk k, v)], rest4)
            | _ => none
        | _ => none
    | _ => none

end

/-- Model of `JSON.parse`: parse one JSON value, requiring the whole
input to be consumed (up to surrounding whitespace), and reject
everything else with `none`, which the service layer treats like a
thrown `SyntaxError`.  Faithful to `JSON.parse` on all JSON texts whose
numbers are integers; remaining modelling boundaries, none of which any
claim's statement reaches: fraction/exponent number forms denote IEEE
doubles (outside the embedding, rejected here), `\uXXXX` surrogate pairs
are not combined, and duplicate object keys are kept rather than
last-wins merged. -/
def JSONparse (s : String) : Option JVal :=
  match parseVal (2 * s.data.length + 2) s.data with
  | some (v, rest) => if skipWs rest = [] then some v else none
  | none => none

theorem charToNat_lt (c : Char) : c.toNat < 1114112 := by
  rcases c.valid with h | h
  · exact Nat.lt_trans h (by norm_num)
  · exact h.2

theorem charToNat_inj {c1 c2 : Char} (h : c1.toNat = c2.toNat) : c1 = c2 :=
  Char.ext_iff.mpr (UInt32.ext h)

theorem stringDataInj {s1 s2 : String} (h : s1.data = s2.data) : s1 = s2 := by
  rcases s1 with ⟨l1⟩
  rcases s2 with ⟨l2⟩
  exact congrArg String.mk h

theorem dataAppend (s t : String) : (s ++ t).data = s.data ++ t.data := rfl

theorem dataColon : (":" : String).data = [':'] := rfl

theorem dataComma : ("," : String).data = [','] := rfl

theorem dataQuote : ("\"" : String).data = ['"'] := rfl

theorem dataQuoteColon : ("\":" : String).data = ['"', ':'] := rfl

/-! ## JSON.parse inverts JSON.stringify

The serializer-inverse property `JSONparse (JVal.stringify v) = some v`
is proved for every modelled JSON value, so "JSON-serializable value"
needs no side condition anywhere below.
-/

theorem charOfNat_small : ∀ m < 64, (Char.ofNat m).toNat = m := by decide

theorem hexVal_hexDigit : ∀ n < 16, hexVal (hexDigit n) = some n := by decide

theorem digitChar_isDigit : ∀ d < 10, (Char.ofNat (48 + d)).isDigit = true := by decide

theorem digitChar_not_ws : ∀ d < 10, isWs (Char.ofNat (48 + d)) = false := by decide

theorem digitChar_ne_zero : ∀ d < 10, 1 ≤ d → Char.ofNat (48 + d) ≠ '0' := by decide

theorem digitChar_ne_kw : ∀ d < 10,
    Char.ofNat (48 + d) ≠ 'n' ∧ Char.ofNat (48 + d) ≠ 't' ∧
    Char.ofNat (48 + d) ≠ 'f' ∧ Char.ofNat (48 + d) ≠ '"' ∧
    Char.ofNat (48 + d) ≠ '-' ∧ Char.ofNat (48 + d) ≠ '[' ∧
    Char.ofNat (48 + d) ≠ '\x7b' ∧ Char.ofNat (48 + d) ≠ ']' ∧
    Char.ofNat (48 + d) ≠ '\x7d' := by decide

theorem skipWs_not_ws {c : Char} (h : isWs c = false) (cs : List Char) :
    skipWs (c :: cs) = c :: cs := by
  simp [skipWs, h]

theorem natToDigits_zero (f : Nat) : natToDigits (f + 1) 0 = ['0'] := by
  simp [natToDigits]

theorem natToDigits_shape : ∀ f n, n < f →
    ∃ d t, d < 10 ∧ natToDigits f n = Char.ofNat (48 + d) :: t := by
  intro f
  induction f with
  | zero => intro n h; omega
  | succ f ih =>
    intro n h
    by_cases h10 : n < 10
    · exact ⟨n, [], h10, by simp [natToDigits, h10]⟩
    · obtain ⟨d, t, hd, ht⟩ := ih (n / 10) (by omega)
      exact ⟨d, t ++ [Char.ofNat (48 + n % 10)], hd, by simp [natToDigits, h10, ht]⟩

theorem natToDigits_mem : ∀ f n, ∀ c ∈ natToDigits f n,
    ∃ d, d < 10 ∧ c = Char.ofNat (48 + d) := by
  intro f
  induction f with
  | zero => intro n c hc; simp [natToDigits] at hc
  | succ f ih =>
    intro n c hc
    by_cases h10 : n < 10
    · simp [natToDigits, h10] at hc
      exact ⟨n, h10, hc⟩
    · simp only [natToDigits, if_neg h10, List.mem_append, List.mem_singleton] at hc
      rcases hc with hc | hc
      · exact ih (n / 10) c hc
      · exact ⟨n % 10, by omega, hc⟩

theorem natToDigits_head_ne_zero : ∀ f n, n < f → 1 ≤ n →
    ∀ c t, natToDigits f n = c :: t → c ≠ '0' := by
  intro f
  induction f with
  | zero => intro n h; omega
  | succ f ih =>
    intro n h h1 c t heq
    by_cases h10 : n < 10
    · simp only [natToDigits, if_pos h10, List.cons.injEq] at heq
      rw [← heq.1]
      exact digitChar_ne_zero n h10 h1
    · obtain ⟨d, t', hd, ht'⟩ := natToDigits_shape f (n / 10) (by omega)
      have hexp : natToDigits (f + 1) n =
          Char.ofNat (48 + d) :: (t' ++ [Char.ofNat (48 + n % 10)]) := by
        simp [natToDigits, h10, ht']
      rw [hexp] at heq
      injection heq with heq1 _
      rw [← heq1]
      exact ih (n / 10) (by omega) (by omega) (Char.ofNat (48 + d)) t' ht'

theorem digitsToNat_append_digit (xs : List Char) (c : Char) :
    digitsToNat (xs ++ [c]) = digitsToNat xs * 10 + (c.toNat - 48) := by
  simp [digitsToNat, List.foldl_append]

theorem natToDigits_val : ∀ f n, n < f → digitsToNat (natToDigits f n) = n := by
  intro f
  induction f with
  | zero => intro n h; omega
  | succ f ih =>
    intro n h
    by_cases h10 : n < 10
    · have hc := charOfNat_small (48 + n) (by omega)
      simp [natToDigits, h10, digitsToNat, hc]
    · rw [natToDigits, if_neg h10, digitsToNat_append_digit, ih (n / 10) (by omega),
        charOfNat_small (48 + n % 10) (by omega)]
      omega

theorem spanDigits_append : ∀ ds rest, (∀ c ∈ ds, c.isDigit = true) →
    (∀ c t, rest = c :: t → c.isDigit = false) →
    spanDigits (ds ++ rest) = (ds, rest) := by
  intro ds
  induction ds with
  | nil =>
    intro rest _ hrest
    cases rest with
    | nil => rfl
    | cons c t => simp [spanDigits, hrest c t rfl]
  | cons d ds ih =>
    intro rest hds hrest
    have hd : d.isDigit = true := hds d (by simp)
    simp [spanDigits, hd, ih rest (fun c hc => hds c (by simp [hc])) hrest]

theorem jsonEscapeChar_ne_nil (c : Char) : jsonEscapeChar c ≠ [] := by
  unfold jsonEscapeChar
  split_ifs <;> simp

theorem length_le_jsonEscape : ∀ cs : List Char, cs.length ≤ (jsonEscape cs).length := by
  intro cs
  induction cs with
  | nil => simp [jsonEscape]
  | cons c cs ih =>
    have h1 : 1 ≤ (jsonEscapeChar c).length :=
      Nat.pos_of_ne_zero (fun h0 => jsonEscapeChar_ne_nil c (List.length_eq_zero.mp h0))
    simp only [jsonEscape, List.flatMap_cons, List.length_append, List.length_cons] at ih ⊢
    omega

theorem parseStr_group (c : Char) (tail : List Char) (f : Nat) :
    parseStr (f + 1) (jsonEscapeChar c ++ tail) =
      (parseStr f tail).map (fun p => (c :: p.1, p.2)) := by
  unfold jsonEscapeChar
  split_ifs with h1 h2 h3 h4 h5 h6 h7 h8
  · subst h1; simp [parseStr]
  · subst h2; simp [parseStr]
  · subst h3; simp [parseStr]
  · subst h4; simp [parseStr]
  · subst h5; simp [parseStr]
  · subst h6; simp [parseStr]
  · subst h7; simp [parseStr]
  · have h0 : hexVal '0' = some 0 := by decide
    have hhi := hexVal_hexDigit (c.toNat / 16) (by omega)
    have hlo := hexVal_hexDigit (c.toNat % 16) (by omega)
    have hc : Char.ofNat (c.toNat / 16 * 16 + c.toNat % 16) = c := by
      have hb : c.toNat / 16 * 16 + c.toNat % 16 = c.toNat := by omega
      rw [hb]
      exact charToNat_inj (charOfNat_small c.toNat (by omega))
    simp [parseStr, h0, hhi, hlo, hc]
  · simp [parseStr, h1, h2, h8]

theorem parseStr_roundtrip : ∀ (cs : List Char) (f : Nat) (rest : List Char),
    cs.length + 1 ≤ f →
    parseStr f (jsonEscape cs ++ '"' :: rest) = some (cs, rest) := by
  intro cs
  induction cs with
  | nil =>
    intro f rest hf
    obtain ⟨f', rfl⟩ : ∃ f', f = f' + 1 := ⟨f - 1, by omega⟩
    simp [jsonEscape, parseStr]
  | cons c cs ih =>
    intro f rest hf
    obtain ⟨f', rfl⟩ : ∃ f', f = f' + 1 := ⟨f - 1, by omega⟩
    have hesc : jsonEscape (c :: cs) = jsonEscapeChar c ++ jsonEscape cs := by
      simp [jsonEscape]
    have hf' : cs.length + 1 ≤ f' := by
      simp only [List.length_cons] at hf
      omega
    rw [hesc, List.append_assoc, parseStr_group, ih f' rest hf']
    rfl

/-- The characters a serialized JSON value can start with. -/
def headOk (c : Char) : Prop :=
  c = 'n' ∨ c = 't' ∨ c = 'f' ∨ c = '"' ∨ c = '-' ∨
    (∃ d, d < 10 ∧ c = Char.ofNat (48 + d)) ∨ c = '[' ∨ c = '\x7b'

theorem headOk_not_ws {c : Char} (h : headOk c) : isWs c = false := by
  rcases h with rfl | rfl | rfl | rfl | rfl | ⟨d, hd, rfl⟩ | rfl | rfl
  · decide
  · decide
  · decide
  · decide
  · decide
  · exact digitChar_not_ws d hd
  · decide
  · decide

theorem headOk_ne_rb {c : Char} (h : headOk c) : c ≠ ']' := by
  rcases h with rfl | rfl | rfl | rfl | rfl | ⟨d, hd, rfl⟩ | rfl | rfl
  · decide
  · decide
  · decide
  · decide
  · decide
  · exact (digitChar_ne_kw d hd).2.2.2.2.2.2.2.1
  · decide
  · decide

theorem headOk_ne_rbrace {c : Char} (h : headOk c) : c ≠ '\x7d' := by
  rcases h with rfl | rfl | rfl | rfl | rfl | ⟨d, hd, rfl⟩ | rfl | rfl
  · decide
  · decide
  · decide
  · decide
  · decide
  · exact (digitChar_ne_kw d hd).2.2.2.2.2.2.2.2
  · decide
  · decide

theorem stringify_head : ∀ v : JVal, ∃ c t, (JVal.stringify v).data = c :: t ∧ headOk c := by
  intro v
  cases v with
  | jnull => exact ⟨'n', ['u', 'l', 'l'], rfl, Or.inl rfl⟩
  | jbool b =>
    cases b with
    | true => exact ⟨'t', ['r', 'u', 'e'], rfl, Or.inr (Or.inl rfl)⟩
    | false => exact ⟨'f', ['a', 'l', 's', 'e'], rfl, Or.inr (Or.inr (Or.inl rfl))⟩
  | jnum n =>
    show ∃ c t, (intRepr n).data = c :: t ∧ headOk c
    unfold intRepr
    split_ifs with hneg
    · exact ⟨'-', _, rfl, Or.inr (Or.inr (Or.inr (Or.inr (Or.inl rfl))))⟩
    · obtain ⟨d, t, hd, ht⟩ := natToDigits_shape (n.toNat + 1) n.toNat (by omega)
      exact ⟨Char.ofNat (48 + d), t, by simpa using ht,
        Or.inr (Or.inr (Or.inr (Or.inr (Or.inr (Or.inl ⟨d, hd, rfl⟩)))))⟩
  | jstr s =>
    exact ⟨'"', _, rfl, Or.inr (Or.inr (Or.inr (Or.inl rfl)))⟩
  | jarr xs =>
    exact ⟨'[', _, rfl, Or.inr (Or.inr (Or.inr (Or.inr (Or.inr (Or.inr (Or.inl rfl))))))⟩
  | jobj fs =>
    exact ⟨'\x7b', _, rfl,
      Or.inr (Or.inr (Or.inr (Or.inr (Or.inr (Or.inr (Or.inr rfl))))))⟩

theorem stringify_ne_empty (v : JVal) : JVal.stringify v ≠ "" := by
  obtain ⟨c, t, hdata, -⟩ := stringify_head v
  intro h
  rw [h] at hdata
  simp at hdata

theorem parseVal_digits (f m : Nat) (rest : List Char)
    (hnd : ∀ c t, rest = c :: t → c.isDigit = false) :
    parseVal (f + 1) (natToDigits (m + 1) m ++ rest) = some (JVal.jnum (m : Int), rest) := by
  obtain ⟨d, t, hd, ht⟩ := natToDigits_shape (m + 1) m (by omega)
  have hmem : ∀ c ∈ natToDigits (m + 1) m, c.isDigit = true := by
    intro c hc
    obtain ⟨e, he, rfl⟩ := natToDigits_mem (m + 1) m c hc
    exact digitChar_isDigit e he
  have hspan : spanDigits (Char.ofNat (48 + d) :: (t ++ rest)) =
      (Char.ofNat (48 + d) :: t, rest) := by
    rw [← List.cons_append, ← ht]
    exact spanDigits_append _ _ hmem hnd
  have hkw := digitChar_ne_kw d hd
  have hws := digitChar_not_ws d hd
  have hdig := digitChar_isDigit d hd
  have hval : digitsToNat (Char.ofNat (48 + d) :: t) = m := by
    rw [← ht]
    exact natToDigits_val (m + 1) m (by omega)
  have hnolead : ¬(1 < (Char.ofNat (48 + d) :: t).length ∧
      (Char.ofNat (48 + d) :: t).head? = some '0') := by
    rcases Nat.eq_zero_or_pos m with rfl | hm
    · rw [natToDigits_zero] at ht
      rw [← ht]
      simp
    · rintro ⟨-, hhead⟩
      simp only [List.head?_cons, Option.some.injEq] at hhead
      exact natToDigits_head_ne_zero (m + 1) m (by omega) hm _ _ ht hhead
  rw [ht, List.cons_append]
  simp only [parseVal]
  rw [skipWs_not_ws hws]
  simp [hkw.1, hkw.2.1, hkw.2.2.1, hkw.2.2.2.1, hkw.2.2.2.2.1, hdig, hspan,
    hnolead, hval]
  intro hlen hC
  apply hnolead
  constructor
  · simp only [List.length_cons]
    omega
  · simp [hC]

theorem parseVal_digits_neg (f m : Nat) (hm : 1 ≤ m) (rest : List Char)
    (hnd : ∀ c t, rest = c :: t → c.isDigit = false) :
    parseVal (f + 1) ('-' :: (natToDigits (m + 1) m ++ rest)) =
      some (JVal.jnum (-(m : Int)), rest) := by
  obtain ⟨d, t, hd, ht⟩ := natToDigits_shape (m + 1) m (by omega)
  have hmem : ∀ c ∈ natToDigits (m + 1) m, c.isDigit = true := by
    intro c hc
    obtain ⟨e, he, rfl⟩ := natToDigits_mem (m + 1) m c hc
    exact digitChar_isDigit e he
  have hspan : spanDigits (natToDigits (m + 1) m ++ rest) = (natToDigits (m + 1) m, rest) :=
    spanDigits_append _ _ hmem hnd
  have hval : digitsToNat (natToDigits (m + 1) m) = m :=
    natToDigits_val (m + 1) m (by omega)
  have hne : natToDigits (m + 1) m ≠ [] := by
    rw [ht]
    simp
  have hnolead : ¬(1 < (natToDigits (m + 1) m).length ∧
      (natToDigits (m + 1) m).head? = some '0') := by
    rintro ⟨-, hhead⟩
    rw [ht] at hhead
    simp only [List.head?_cons, Option.some.injEq] at hhead
    exact natToDigits_head_ne_zero (m + 1) m (by omega) hm _ _ ht hhead
  simp only [parseVal]
  rw [skipWs_not_ws (by decide)]
  simp [hspan, hne, hnolead, hval]

theorem dataLBracket : ("[" : String).data = ['['] := rfl

theorem dataRBracket : ("]" : String).data = [']'] := rfl

theorem dataLBrace : ("\x7b" : String).data = ['\x7b'] := rfl

theorem dataRBrace : ("\x7d" : String).data = ['\x7d'] := rfl

mutual

/-- Fuel consumed by `parseVal` on the serialization of a value. -/
def countVal : JVal → Nat
  | JVal.jnull => 1
  | JVal.jbool _ => 1
  | JVal.jnum _ => 1
  | JVal.jstr s => s.data.length + 2
  | JVal.jarr [] => 1
  | JVal.jarr (x :: xs) => 1 + countElems (x :: xs)
  | JVal.jobj [] => 1
  | JVal.jobj (g :: fs) => 1 + countFields (g :: fs)

/-- Fuel consumed by `parseElems` on serialized array elements. -/
def countElems : List JVal → Nat
  | [] => 1
  | [v] => 1 + countVal v
  | v :: w :: rest => 1 + countVal v + countElems (w :: rest)

/-- Fuel consumed by `parseFields` on serialized object members. -/
def countFields : List (String × JVal) → Nat
  | [] => 1
  | [(k, v)] => 1 + (k.data.length + 1) + countVal v
  | (k, v) :: g :: rest => 1 + (k.data.length + 1) + countVal v + countFields (g :: rest)

end

theorem countVal_pos (v : JVal) : 1 ≤ countVal v := by
  cases v with
  | jnull => simp [countVal]
  | jbool b => simp [countVal]
  | jnum n => simp [countVal]
  | jstr s => simp only [countVal]; omega
  | jarr xs => rcases xs with _ | ⟨x, xs⟩ <;> simp only [countVal] <;> omega
  | jobj fs => rcases fs with _ | ⟨g, fs⟩ <;> simp only [countVal] <;> omega

theorem countElems_pos (xs : List JVal) : 1 ≤ countElems xs := by
  rcases xs with _ | ⟨v, _ | ⟨w, rest⟩⟩ <;> simp only [countElems] <;> omega

theorem countFields_pos (fs : List (String × JVal)) : 1 ≤ countFields fs := by
  rcases fs with _ | ⟨⟨k, v⟩, _ | ⟨g, rest⟩⟩ <;> simp only [countFields] <;> omega

mutual

theorem countVal_le : ∀ v : JVal, countVal v ≤ 2 * (JVal.stringify v).data.length + 1
  | JVal.jnull => by simp only [countVal]; omega
  | JVal.jbool b => by cases b <;> simp only [countVal] <;> omega
  | JVal.jnum n => by simp only [countVal]; omega
  | JVal.jstr s => by
    have h := length_le_jsonEscape s.data
    have hlen : (JVal.stringify (JVal.jstr s)).data.length =
        (jsonEscape s.data).length + 2 := by
      simp only [JVal.stringify, dataAppend, dataQuote, List.length_append,
        List.length_cons, List.length_nil]
      try omega
    simp only [countVal, hlen]
    omega
  | JVal.jarr [] => by simp only [countVal]; omega
  | JVal.jarr (x :: xs) => by
    have h := countElems_le (x :: xs) (by simp)
    have hlen : (JVal.stringify (JVal.jarr (x :: xs))).data.length =
        (stringifyList (x :: xs)).data.length + 2 := by
      simp only [JVal.stringify, dataAppend, dataLBracket, dataRBracket,
        List.length_append, List.length_cons, List.length_nil]
      omega
    simp only [countVal, hlen]
    omega
  | JVal.jobj [] => by simp only [countVal]; omega
  | JVal.jobj (g :: fs) => by
    have h := countFields_le (g :: fs) (by simp)
    have hlen : (JVal.stringify (JVal.jobj (g :: fs))).data.length =
        (stringifyFields (g :: fs)).data.length + 2 := by
      simp only [JVal.stringify, dataAppend, dataLBrace, dataRBrace,
        List.length_append, List.length_cons, List.length_nil]
      omega
    simp only [countVal, hlen]
    omega

theorem countElems_le : ∀ xs : List JVal, xs ≠ [] →
    countElems xs ≤ 2 * ((stringifyList xs).data.length + 1)
  | [], h => absurd rfl h
  | [v], _ => by
    have h := countVal_le v
    simp only [countElems, stringifyList]
    omega
  | v :: w :: rest, _ => by
    have h1 := countVal_le v
    have h2 := countElems_le (w :: rest) (by simp)
    have hlen : (stringifyList (v :: w :: rest)).data.length =
        (JVal.stringify v).data.length + 1 + (stringifyList (w :: rest)).data.length := by
      simp only [stringifyList, dataAppend, dataComma, List.length_append,
        List.length_cons, List.length_nil]
      try omega
    simp only [countElems, hlen]
    omega

theorem countFields_le : ∀ fs : List (String × JVal), fs ≠ [] →
    countFields fs ≤ 2 * ((stringifyFields fs).data.length + 1)
  | [], h => absurd rfl h
  | [(k, v)], _ => by
    have hv := countVal_le v
    have hk := length_le_jsonEscape k.data
    have hlen : (stringifyFields [(k, v)]).data.length =
        (jsonEscape k.data).length + 3 + (JVal.stringify v).data.length := by
      simp only [stringifyFields, dataAppend, dataQuote, dataQuoteColon,
        List.length_append, List.length_cons, List.length_nil]
      omega
    simp only [countFields, hlen]
    omega
  | (k, v) :: g :: rest, _ => by
    have hv := countVal_le v
    have hk := length_le_jsonEscape k.data
    have hrest := countFields_le (g :: rest) (by simp)
    have hlen : (stringifyFields ((k, v) :: g :: rest)).data.length =
        (jsonEscape k.data).length + 4 + (JVal.stringify v).data.length +
          (stringifyFields (g :: rest)).data.length := by
      simp only [stringifyFields, dataAppend, dataQuote, dataQuoteColon, dataComma,
        List.length_append, List.length_cons, List.length_nil]
      omega
    simp only [countFields, hlen]
    omega

end

/-- Round trip of the parser against the serializer, for values, array
elements and object members, by strong induction on the fuel. -/
theorem parse_stringify_all : ∀ f : Nat,
    (∀ v rest, countVal v ≤ f → (∀ c t, rest = c :: t → c.isDigit = false) →
      parseVal f ((JVal.stringify v).data ++ rest) = some (v, rest)) ∧
    (∀ xs rest, xs ≠ [] → countElems xs ≤ f →
      parseElems f ((stringifyList xs).data ++ ']' :: rest) = some (xs, rest)) ∧
    (∀ fs rest, fs ≠ [] → countFields fs ≤ f →
      parseFields f ((stringifyFields fs).data ++ '\x7d' :: rest) = some (fs, rest)) := by
  intro f
  induction f using Nat.strong_induction_on with
  | h f IH =>
    rcases f with _ | f
    · refine ⟨fun v rest hc _ => absurd hc (by have := countVal_pos v; omega),
        fun xs rest _ hc => absurd hc (by have := countElems_pos xs; omega),
        fun fs rest _ hc => absurd hc (by have := countFields_pos fs; omega)⟩
    have IH' := IH f (Nat.lt_succ_self f)
    refine ⟨?_, ?_, ?_⟩
    · intro v rest hc hnd
      cases v with
      | jnull =>
        have hrepr : (JVal.stringify JVal.jnull).data ++ rest =
            'n' :: 'u' :: 'l' :: 'l' :: rest := rfl
        rw [hrepr]
        simp only [parseVal]
        rw [skipWs_not_ws (by decide)]
        simp
      | jbool b =>
        cases b with
        | true =>
          have hrepr : (JVal.stringify (JVal.jbool true)).data ++ rest =
              't' :: 'r' :: 'u' :: 'e' :: rest := rfl
          rw [hrepr]
          simp only [parseVal]
          rw [skipWs_not_ws (by decide)]
          simp
        | false =>
          have hrepr : (JVal.stringify (JVal.jbool false)).data ++ rest =
              'f' :: 'a' :: 'l' :: 's' :: 'e' :: rest := rfl
          rw [hrepr]
          simp only [parseVal]
          rw [skipWs_not_ws (by decide)]
          simp
      | jnum n =>
        rcases Int.lt_or_le n 0 with hneg | hpos
        · have hrepr : (JVal.stringify (JVal.jnum n)).data =
              '-' :: natToDigits (n.natAbs + 1) n.natAbs := by
            simp [JVal.stringify, intRepr, hneg]
          have heq : -((n.natAbs : Nat) : Int) = n := by omega
          rw [hrepr, List.cons_append,
            parseVal_digits_neg f n.natAbs (by omega) rest hnd, heq]
        · have hnn : ¬(n < 0) := by omega
          have hrepr : (JVal.stringify (JVal.jnum n)).data =
              natToDigits (n.toNat + 1) n.toNat := by
            simp [JVal.stringify, intRepr, hnn]
          have heq : ((n.toNat : Nat) : Int) = n := by omega
          rw [hrepr, parseVal_digits f n.toNat rest hnd, heq]
      | jstr s =>
        have hrepr : (JVal.stringify (JVal.jstr s)).data ++ rest =
            '"' :: (jsonEscape s.data ++ '"' :: rest) := by
          simp [JVal.stringify, dataAppend, dataQuote]
        have hfuel : s.data.length + 1 ≤ f := by
          simp only [countVal] at hc
          omega
        rw [hrepr]
        simp only [parseVal]
        rw [skipWs_not_ws (by decide)]
        simp [parseStr_roundtrip s.data f rest hfuel]
      | jarr xs =>
        rcases xs with _ | ⟨x, xs⟩
        · have hrepr : (JVal.stringify (JVal.jarr [])).data ++ rest =
              '[' :: ']' :: rest := rfl
          rw [hrepr]
          simp only [parseVal]
          rw [skipWs_not_ws (by decide)]
          simp
        · obtain ⟨c0, t0, hx, hok⟩ := stringify_head x
          have hcE : countElems (x :: xs) ≤ f := by
            simp only [countVal] at hc
            omega
          obtain ⟨TL, hsl⟩ : ∃ TL, (stringifyList (x :: xs)).data = c0 :: TL := by
            rcases xs with _ | ⟨w, ws⟩
            · exact ⟨t0, by simpa [stringifyList] using hx⟩
            · exact ⟨t0 ++ (',' :: (stringifyList (w :: ws)).data), by
                simp [stringifyList, dataAppend, dataComma, hx]⟩
          have hrepr : (JVal.stringify (JVal.jarr (x :: xs))).data ++ rest =
              '[' :: (c0 :: (TL ++ ']' :: rest)) := by
            simp [JVal.stringify, dataAppend, dataLBracket, dataRBracket, hsl]
          have harr : parseElems f (c0 :: (TL ++ ']' :: rest)) = some (x :: xs, rest) := by
            have hfold : c0 :: (TL ++ ']' :: rest) =
                (stringifyList (x :: xs)).data ++ ']' :: rest := by
              rw [hsl]
              simp
            rw [hfold]
            exact IH'.2.1 (x :: xs) rest (by simp) hcE
          rw [hrepr]
          simp only [parseVal]
          rw [skipWs_not_ws (by decide)]
          simp [headOk_ne_rb hok, harr]
      | jobj fs =>
        rcases fs with _ | ⟨g, fs⟩
        · have hrepr : (JVal.stringify (JVal.jobj [])).data ++ rest =
              '\x7b' :: '\x7d' :: rest := rfl
          rw [hrepr]
          simp only [parseVal]
          rw [skipWs_not_ws (by decide)]
          simp
        · have hcF : countFields (g :: fs) ≤ f := by
            simp only [countVal] at hc
            omega
          obtain ⟨kh, vh⟩ := g
          obtain ⟨TL, hsl⟩ : ∃ TL, (stringifyFields ((kh, vh) :: fs)).data = '"' :: TL := by
            rcases fs with _ | ⟨g2, gs⟩
            · exact ⟨jsonEscape kh.data ++ '"' :: ':' :: (JVal.stringify vh).data, by
                simp [stringifyFields, dataAppend, dataQuote, dataQuoteColon]⟩
            · exact ⟨jsonEscape kh.data ++ '"' :: ':' :: ((JVal.stringify vh).data ++
                ',' :: (stringifyFields (g2 :: gs)).data), by
                simp [stringifyFields, dataAppend, dataQuote, dataQuoteColon, dataComma]⟩
          have hrepr : (JVal.stringify (JVal.jobj ((kh, vh) :: fs))).data ++ rest =
              '\x7b' :: ('"' :: (TL ++ '\x7d' :: rest)) := by
            simp [JVal.stringify, dataAppend, dataLBrace, dataRBrace, hsl]
          have hobj : parseFields f ('"' :: (TL ++ '\x7d' :: rest)) =
              some ((kh, vh) :: fs, rest) := by
            have hfold : '"' :: (TL ++ '\x7d' :: rest) =
                (stringifyFields ((kh, vh) :: fs)).data ++ '\x7d' :: rest := by
              rw [hsl]
              simp
            rw [hfold]
            exact IH'.2.2 ((kh, vh) :: fs) rest (by simp) hcF
          rw [hrepr]
          simp only [parseVal]
          rw [skipWs_not_ws (by decide)]
          simp [hobj]
    · intro xs rest hne hc
      rcases xs with _ | ⟨x, _ | ⟨w, ws⟩⟩
      · exact absurd rfl hne
      · have hcv : countVal x ≤ f := by
          simp only [countElems] at hc
          omega
        have hval := IH'.1 x (']' :: rest) hcv (by
          intro c t hct
          injection hct with h1 _
          rw [← h1]
          decide)
        have hsl : (stringifyList [x]).data = (JVal.stringify x).data := by
          simp [stringifyList]
        rw [hsl]
        simp only [parseElems, hval]
        rw [skipWs_not_ws (by decide)]
        simp
      · have hcv : countVal x ≤ f := by
          simp only [countElems] at hc
          omega
        have hcE : countElems (w :: ws) ≤ f := by
          simp only [countElems] at hc
          omega
        have hsl : (stringifyList (x :: w :: ws)).data ++ ']' :: rest =
            (JVal.stringify x).data ++
              ',' :: ((stringifyList (w :: ws)).data ++ ']' :: rest) := by
          simp [stringifyList, dataAppend, dataComma]
        have hvalx := IH'.1 x
          (',' :: ((stringifyList (w :: ws)).data ++ ']' :: rest)) hcv (by
          intro c t hct
          injection hct with h1 _
          rw [← h1]
          decide)
        have hrest := IH'.2.1 (w :: ws) rest (by simp) hcE
        rw [hsl]
        simp only [parseElems, hvalx]
        rw [skipWs_not_ws (by decide)]
        simp [hrest]
    · intro fs rest hne hc
      rcases fs with _ | ⟨⟨k, v⟩, _ | ⟨g, gs⟩⟩
      · exact absurd rfl hne
      · have hck : k.data.length + 1 ≤ f := by
          simp only [countFields] at hc
          omega
        have hcv : countVal v ≤ f := by
          simp only [countFields] at hc
          omega
        have hfe : (stringifyFields [(k, v)]).data ++ '\x7d' :: rest =
            '"' :: (jsonEscape k.data ++ '"' ::
              (':' :: ((JVal.stringify v).data ++ '\x7d' :: rest))) := by
          simp [stringifyFields, dataAppend, dataQuote, dataQuoteColon]
        have hkey := parseStr_roundtrip k.data f
          (':' :: ((JVal.stringify v).data ++ '\x7d' :: rest)) hck
        have hbody := IH'.1 v ('\x7d' :: rest) hcv (by
          intro c t hct
          injection hct with h1 _
          rw [← h1]
          decide)
        rw [hfe]
        simp only [parseFields]
        rw [skipWs_not_ws (by decide)]
        simp [hkey, hbody, skipWs, isWs]
      · have hck : k.data.length + 1 ≤ f := by
          simp only [countFields] at hc
          omega
        have hcv : countVal v ≤ f := by
          simp only [countFields] at hc
          omega
        have hcF : countFields (g :: gs) ≤ f := by
          simp only [countFields] at hc
          omega
        have hfe : (stringifyFields ((k, v) :: g :: gs)).data ++ '\x7d' :: rest =
            '"' :: (jsonEscape k.data ++ '"' ::
              (':' :: ((JVal.stringify v).data ++
                ',' :: ((stringifyFields (g :: gs)).data ++ '\x7d' :: rest)))) := by
          simp [stringifyFields, dataAppend, dataQuote, dataQuoteColon, dataComma]
        have hkey := parseStr_roundtrip k.data f
          (':' :: ((JVal.stringify v).data ++
            ',' :: ((stringifyFields (g :: gs)).data ++ '\x7d' :: rest))) hck
        have hbody := IH'.1 v
          (',' :: ((stringifyFields (g :: gs)).data ++ '\x7d' :: rest)) hcv (by
          intro c t hct
          injection hct with h1 _
          rw [← h1]
          decide)
        have hrest := IH'.2.2 (g :: gs) rest (by simp) hcF
        rw [hfe]
        simp only [parseFields]
        rw [skipWs_not_ws (by decide)]
        simp [hkey, hbody, hrest, skipWs, isWs]

/-- `JSON.parse` inverts `JSON.stringify` on every modelled JSON
value. -/
theorem JSONparse_stringify (v : JVal) : JSONparse (JVal.stringify v) = some v := by
  have hle := countVal_le v
  have h := (parse_stringify_all (2 * (JVal.stringify v).data.length + 2)).1 v []
    (by omega) (fun c t hct => List.noConfusion hct)
  rw [List.append_nil] at h
  unfold JSONparse
  rw [h]
  simp [skipWs]

/-! ## The Redis store model -/

/-- One key/value pair held by the external Redis store.  `ttl` records
the relative expiry (in seconds) attached by `SETEX`; `none` stands for a
plain `SET` without expiry. -/
structure Entry where
  key : String
  val : String
  ttl : Option Nat
deriving DecidableEq, Repr

/-- The external Redis keyspace. -/
abbrev Store := List Entry

/-- Entry stored under a key, if any. -/
def storeGetEntry (st : Store) (k : String) : Option Entry :=
  st.find? (fun e => e.key == k)

/-- Serialized value stored under a key, if any (Redis `GET`). -/
def storeGet (st : Store) (k : String) : Option String :=
  (storeGetEntry st k).map (fun e => e.val)

/-- Redis `SETEX key ttl v`: overwrite the binding of `k`. -/
def storeSetEx (st : Store) (k v : String) (ttl : Nat) : Store :=
  Entry.mk k v (some ttl) :: st.filter (fun e => e.key != k)

/-- Redis `SET key v` without expiry options. -/
def storeSetPlain (st : Store) (k v : String) : Store :=
  Entry.mk k v none :: st.filter (fun e => e.key != k)

/-- Redis `DEL key`: the remaining store and the number (0 or 1) of keys
removed. -/
def storeDel (st : Store) (k : String) : Store × Nat :=
  (st.filter (fun e => e.key != k), if st.any (fun e => e.key == k) then 1 else 0)

/-- Redis `DEL k1 k2 …` on a list of keys: remaining store and count of
keys that existed and were removed. -/
def storeDelMany (st : Store) (ks : List String) : Store × Nat :=
  ks.foldl
    (fun acc k =>
      let res := storeDel acc.1 k
      (res.1, acc.2 + res.2))
    (st, 0)

/-- Redis `EXISTS key` (0 or 1). -/
def storeExistsN (st : Store) (k : String) : Nat :=
  if st.any (fun e => e.key == k) then 1 else 0

/-- Redis glob matching as used by the `KEYS` command: `*` matches any
(possibly empty) sequence of characters, `?` matches exactly one
character, every other character matches itself.  Structural recursion on
an explicit fuel argument; every recursive call shrinks
`pattern.length + s.length`, so the fuel used by `globMatch` below never
runs out. -/
def globMatchFuel : Nat → List Char → List Char → Bool
  | 0, _, _ => false
  | _ + 1, [], [] => true
  | _ + 1, [], _ :: _ => false
  | f + 1, '*' :: ps, [] => globMatchFuel f ps []
  | f + 1, '*' :: ps, c :: cs =>
      globMatchFuel f ps (c :: cs) || globMatchFuel f ('*' :: ps) cs
  | _ + 1, '?' :: _, [] => false
  | f + 1, '?' :: ps, _ :: cs => globMatchFuel f ps cs
  | _ + 1, _ :: _, [] => false
  | f + 1, p :: ps, c :: cs => p == c && globMatchFuel f ps cs

def globMatch (pattern s : List Char) : Bool :=
  globMatchFuel (pattern.length + s.length + 1) pattern s

/-- Redis `KEYS pattern`: all keys of the store matching the glob. -/
def storeKeys (st : Store) (pattern : String) : List String :=
  (st.map (fun e => e.key)).filter (fun k => globMatch pattern.data k.data)

/-! ## CacheService state -/

/-- The `metrics` object of the CacheService. -/
structure Metrics where
  hits : Nat
  misses : Nat
  sets : Nat
  deletes : Nat
  errors : Nat
  totalResponseTime : Nat
  requestCount : Nat
deriving DecidableEq, Repr

/-- The metrics object as built by the constructor and by
`resetMetrics`. -/
def Metrics.init : Metrics :=
  Metrics.mk 0 0 0 0 0 0 0

/-- The mutable state of the CacheService singleton, together with the
external store it talks to.  `hasClient` models `this.client !== null`. -/
structure CacheState where
  isConnected : Bool
  hasClient : Bool
  metrics : Metrics
  store : Store
deriving DecidableEq, Repr

def CacheState.bumpHits (s : CacheState) : CacheState :=
  { s with metrics := { s.metrics with hits := s.metrics.hits + 1 } }

def CacheState.bumpMisses (s : CacheState) : CacheState :=
  { s with metrics := { s.metrics with misses := s.metrics.misses + 1 } }

def CacheState.bumpSets (s : CacheState) : CacheState :=
  { s with metrics := { s.metrics with sets := s.metrics.sets + 1 } }

def CacheState.bumpDeletes (s : CacheState) : CacheState :=
  { s with metrics := { s.metrics with deletes := s.metrics.deletes + 1 } }

def CacheState.bumpErrors (s : CacheState) : CacheState :=
  { s with metrics := { s.metrics with errors := s.metrics.errors + 1 } }

namespace CacheService

/-- `CacheService.get(key)`.  `fail` models the awaited `client.get`
rejecting; a rejected promise lands in the `catch` block which increments
`errors` and returns `null`.  A non-null, non-empty reply is truthy: the
code increments `hits` and then runs `JSON.parse`, whose own failure is
also caught by the same `catch` block. -/
def get (s : CacheState) (fail : Bool) (key : String) : Option JVal × CacheState :=
  if !s.isConnected || !s.hasClient then (none, s)
  else if fail then (none, s.bumpErrors)
  else
    match storeGet s.store key with
    | some d =>
        if d ≠ "" then
          let s1 := s.bumpHits
          match JSONparse d with
          | some v => (some v, s1)
          | none => (none, s1.bumpErrors)
        else (none, s.bumpMisses)
    | none => (none, s.bumpMisses)

/-- `CacheService.set(key, value, ttl)` via `client.setEx`. -/
def set (s : CacheState) (fail : Bool) (key : String) (value : JVal) (ttl : Nat) :
    Bool × CacheState :=
  if !s.isConnected || !s.hasClient then (false, s)
  else if fail then (false, s.bumpErrors)
  else
    (true, { s.bumpSets with store := storeSetEx s.store key value.stringify ttl })

/-- `CacheService.del(key)`: increments `deletes` after the awaited
`client.del`, then returns `result > 0`. -/
def del (s : CacheState) (fail : Bool) (key : String) : Bool × CacheState :=
  if !s.isConnected || !s.hasClient then (false, s)
  else if fail then (false, s.bumpErrors)
  else
    let res := storeDel s.store key
    (decide (res.2 > 0), { s.bumpDeletes with store := res.1 })

/-- `CacheService.invalidate(pattern)`: `client.keys` then `client.del`
on the matches; `failKeys` / `failDel` model the respective awaited call
rejecting into the shared `catch` block. -/
def invalidate (s : CacheState) (failKeys failDel : Bool) (pattern : String) :
    Nat × CacheState :=
  if !s.isConnected || !s.hasClient then (0, s)
  else if failKeys then (0, s.bumpErrors)
  else
    let ks := storeKeys s.store pattern
    if ks.isEmpty then (0, s)
    else if failDel then (0, s.bumpErrors)
    else
      let res := storeDelMany s.store ks
      (res.2,
        { s with
          store := res.1,
          metrics := { s.metrics with deletes := s.metrics.deletes + res.2 } })

/-- `CacheService.exists(key)`: returns `result === 1` and touches no
counter on the success path; a rejected `client.exists` increments
`errors` and yields `false`. -/
def existsKey (s : CacheState) (fail : Bool) (key : String) : Bool × CacheState :=
  if !s.isConnected || !s.hasClient then (false, s)
  else if fail then (false, s.bumpErrors)
  else (decide (storeExistsN s.store key = 1), s)

/-- `CacheService.setWithExpiry(key, value, expireAt)`: a plain
`client.set` (the code passes the expiry arguments positionally), then
`sets++`.  The expiry timestamp itself is not retained by the store
model. -/
def setWithExpiry (s : CacheState) (fail : Bool) (key : String) (value : JVal) :
    Bool × CacheState :=
  if !s.isConnected || !s.hasClient then (false, s)
  else if fail then (false, s.bumpErrors)
  else
    (true, { s.bumpSets with store := storeSetPlain s.store key value.stringify })

/-- `CacheService.getStats()`: the returned `connected` field.  Neither
the success nor the failure path touches the metrics counters. -/
def getStats (s : CacheState) (fail : Bool) : Bool × CacheState :=
  if !s.isConnected || !s.hasClient then (false, s)
  else if fail then (false, s)
  else (true, s)

/-- `CacheService.flush()` via `client.flushDb`; no counter is
touched. -/
def flush (s : CacheState) (fail : Bool) : Bool × CacheState :=
  if !s.isConnected || !s.hasClient then (false, s)
  else if fail then (false, s)
  else (true, { s with store := [] })

/-- `CacheService.resetMetrics()`. -/
def resetMetrics (s : CacheState) : CacheState :=
  { s with metrics := Metrics.init }

end CacheService

/-! ## Invalidation middleware: placeholder resolution

`invalidateCache` in middleware/cache.js resolves `:userId`, `:id` and
`:playlistId` placeholders (in that order) with JavaScript
`String.prototype.replace`, which replaces only the first occurrence of a
plain-string pattern.
-/

/-- JavaScript `s.replace(pat, rep)` with a plain-string pattern: replace
the first occurrence of `pat`, if any (an empty `pat` matches at the
start). -/
def listReplaceFirst (s pat rep : List Char) : List Char :=
  if pat.isPrefixOf s then rep ++ s.drop pat.length
  else
    match s with
    | [] => []
    | c :: cs => c :: listReplaceFirst cs pat rep

def jsReplaceFirst (s pat rep : String) : String :=
  String.mk (listReplaceFirst s.data pat.data rep.data)

/-- Placeholder resolution performed by the invalidation middleware:
`req.user?.id`, `req.params?.id` and `req.params?.playlistId` are each
substituted (when present) into the first occurrence of their
placeholder. -/
def resolvePattern (pattern : String) (userId paramId paramPlaylistId : Option String) :
    String :=
  let p1 := match userId with
    | some u => jsReplaceFirst pattern ":userId" u
    | none => pattern
  let p2 := match paramId with
    | some i => jsReplaceFirst p1 ":id" i
    | none => p1
  match paramPlaylistId with
  | some pid => jsReplaceFirst p2 ":playlistId" pid
  | none => p2

/-! ## Basic store lemmas and fixture states -/

theorem storeGetEntry_setEx_same (st : Store) (k v : String) (t : Nat) :
    storeGetEntry (storeSetEx st k v t) k = some (Entry.mk k v (some t)) := by
  simp [storeGetEntry, storeSetEx, List.find?]

theorem storeGet_setEx_same (st : Store) (k v : String) (t : Nat) :
    storeGet (storeSetEx st k v t) k = some v := by
  simp [storeGet, storeGetEntry_setEx_same]

theorem storeGet_eq_none_iff (st : Store) (k : String) :
    storeGet st k = none ↔ ∀ e ∈ st, e.key ≠ k := by
  simp [storeGet, storeGetEntry, Option.map_eq_none, List.find?_eq_none]

theorem storeDel_absent (st : Store) (k : String) (h : storeGet st k = none) :
    storeDel st k = (st, 0) := by
  have hall : ∀ e ∈ st, e.key ≠ k := (storeGet_eq_none_iff st k).mp h
  have hfil : st.filter (fun e => e.key != k) = st :=
    List.filter_eq_self.mpr (fun e he => by simpa using hall e he)
  have hany : st.any (fun e => e.key == k) = false := by
    simp only [List.any_eq_false]
    intro e he
    simpa using hall e he
  simp [storeDel, hfil, hany]

/-- A disconnected service state over an empty keyspace. -/
def disconnectedState : CacheState :=
  CacheState.mk false true Metrics.init []

/-- A connected, healthy service state over an empty keyspace. -/
def connectedEmpty : CacheState :=
  CacheState.mk true true Metrics.init []

/-- A connected, healthy service state whose store holds the serialized
number 7 under key "k". -/
def connectedOne : CacheState :=
  CacheState.mk true true Metrics.init [Entry.mk "k" "7" (some 60)]

/-- A connected, healthy service state whose store holds, under key "k",
a payload that `JSON.parse` rejects (leading-zero numeral). -/
def connectedBad : CacheState :=
  CacheState.mk true true Metrics.init [Entry.mk "k" "007" (some 60)]

/-! ## Claim C1 — fail-open under disconnection -/

/-- Claim C1: whenever the cache store is disconnected
(`isConnected = false`), every Cache Service primitive returns its benign
default without effect: `get` returns `none`, `set` returns `false`,
`del` returns `false`, and `invalidate` returns `0`, each leaving the
state untouched (and, the operations being total functions, without
throwing). -/
theorem C1_fail_open_disconnected (s : CacheState) (fail fk fd : Bool)
    (key pat : String) (v : JVal) (ttl : Nat)
    (h : s.isConnected = false) :
    CacheService.get s fail key = (none, s) ∧
    CacheService.set s fail key v ttl = (false, s) ∧
    CacheService.del s fail key = (false, s) ∧
    CacheService.invalidate s fk fd pat = (0, s) := by
  simp [CacheService.get, CacheService.set, CacheService.del,
    CacheService.invalidate, h]

/-- Witness for C1 at a concrete disconnected state. -/
theorem C1_fail_open_disconnected_witness :
    CacheService.get disconnectedState false "k" = (none, disconnectedState) ∧
    CacheService.set disconnectedState false "k" JVal.jnull 60 = (false, disconnectedState) ∧
    CacheService.del disconnectedState false "k" = (false, disconnectedState) ∧
    CacheService.invalidate disconnectedState false false "user:*" = (0, disconnectedState) :=
  C1_fail_open_disconnected disconnectedState false false false "k" "user:*" JVal.jnull 60 rfl

/-! ## Claim C2 — get accounting -/

/-- Counterexample to claim C2 as stated: on a store-level failure
(`client.get` rejecting) the code increments only the error counter; the
misses counter stays at its old value, so the error is *not* accounted
"on top of the miss accounting". -/
theorem C2_counterexample :
    (CacheService.get connectedEmpty true "k").1 = none ∧
    (CacheService.get connectedEmpty true "k").2.metrics.errors = 1 ∧
    (CacheService.get connectedEmpty true "k").2.metrics.misses = 0 :=
  ⟨rfl, rfl, rfl⟩

/-- Claim C2 (amended): for every key, `get` returns the deserialized
value and increments only the hits counter on a store hit; returns `none`
and increments only the misses counter on a genuine miss; on a payload
that fails to deserialize it returns `none` after incrementing hits and
then the error counter (the code increments hits before `JSON.parse`
throws into the catch block); and on a store-level failure returns `none`
(not an error) while incrementing only the error counter — misses and
hits are unchanged in the failure case — so from the return value alone a
caller cannot distinguish a failure from a miss. -/
theorem C2_get_accounting (s : CacheState) (key d : String) (v : JVal)
    (hc : s.isConnected = true) (hcl : s.hasClient = true) :
    (storeGet s.store key = some d → d ≠ "" → JSONparse d = some v →
      CacheService.get s false key = (some v, s.bumpHits)) ∧
    (storeGet s.store key = none →
      CacheService.get s false key = (none, s.bumpMisses)) ∧
    (storeGet s.store key = some d → d ≠ "" → JSONparse d = none →
      CacheService.get s false key = (none, s.bumpHits.bumpErrors)) ∧
    (CacheService.get s true key = (none, s.bumpErrors) ∧
      (s.bumpErrors).metrics.misses = s.metrics.misses ∧
      (s.bumpErrors).metrics.hits = s.metrics.hits ∧
      (s.bumpErrors).metrics.errors = s.metrics.errors + 1) := by
  refine ⟨?_, ?_, ?_, ?_, rfl, rfl, rfl⟩
  · intro hget hne hparse
    simp [CacheService.get, hc, hcl, hget, hne, hparse]
  · intro hget
    simp [CacheService.get, hc, hcl, hget]
  · intro hget hne hparse
    simp [CacheService.get, hc, hcl, hget, hne, hparse]
  · simp [CacheService.get, hc, hcl, CacheState.bumpErrors]

/-- Witness for C2 (amended): a concrete hit on the payload "7", and the
payload "007" — rejected by `JSON.parse` for its leading zero — counted
as a hit plus an error while returning `none`. -/
theorem C2_get_accounting_witness :
    CacheService.get connectedOne false "k" = (some (JVal.jnum 7), connectedOne.bumpHits) ∧
    CacheService.get connectedBad false "k" = (none, connectedBad.bumpHits.bumpErrors) :=
  ⟨(C2_get_accounting connectedOne "k" "7" (JVal.jnum 7) rfl rfl).1 rfl (by decide) rfl,
    (C2_get_accounting connectedBad "k" "007" JVal.jnull rfl rfl).2.2.1 rfl (by decide) rfl⟩

/-! ## Claim C3 — round trip -/

/-- Claim C3: for every JSON-serializable value `v` — every value of the
JSON model, since `JSONparse_stringify` proves the serialize/deserialize
round trip for all of them — every key `k` and every TTL `t > 0`, with
the store connected and healthy, `set k v t` succeeds and an immediate
`get k` returns exactly `v`. -/
theorem C3_round_trip (s : CacheState) (k : String) (v : JVal) (t : Nat)
    (hc : s.isConnected = true) (hcl : s.hasClient = true) (ht : 0 < t) :
    (CacheService.set s false k v t).1 = true ∧
    (CacheService.get (CacheService.set s false k v t).2 false k).1 = some v := by
  have hser := JSONparse_stringify v
  have hne : JVal.stringify v ≠ "" := stringify_ne_empty v
  constructor
  · simp [CacheService.set, hc, hcl]
  · simp [CacheService.set, CacheService.get, hc, hcl, CacheState.bumpSets,
      storeGet_setEx_same, hne, hser]

/-- Witness for C3 with a composite value (an object holding an array)
under key "k". -/
theorem C3_round_trip_witness :
    (CacheService.set connectedEmpty false "k"
        (JVal.jobj [("songs", JVal.jarr [JVal.jnum 7, JVal.jstr "a b"])]) 60).1 = true ∧
    (CacheService.get (CacheService.set connectedEmpty false "k"
        (JVal.jobj [("songs", JVal.jarr [JVal.jnum 7, JVal.jstr "a b"])]) 60).2
      false "k").1 = some (JVal.jobj [("songs", JVal.jarr [JVal.jnum 7, JVal.jstr "a b"])]) :=
  C3_round_trip connectedEmpty "k"
    (JVal.jobj [("songs", JVal.jarr [JVal.jnum 7, JVal.jstr "a b"])]) 60 rfl rfl (by decide)

/-! ## Claim C4 — delete on an absent key -/

/-- Counterexample to claim C4 as stated: with the store connected and
key "k" absent, `del` returns `result > 0` where Redis reports 0 keys
removed, i.e. `false` — the unsuccessful outcome, not success. -/
theorem C4_counterexample :
    connectedEmpty.isConnected = true ∧
    storeGet connectedEmpty.store "k" = none ∧
    (CacheService.del connectedEmpty false "k").1 = false :=
  ⟨rfl, rfl, rfl⟩

/-- Claim C4 (amended): deleting an absent key does not throw but returns
`false` (the unsuccessful outcome), on the first call and again on a
repeated call; the keyspace is unchanged while the deletes counter still
increments. -/
theorem C4_del_absent (s : CacheState) (key : String)
    (hc : s.isConnected = true) (hcl : s.hasClient = true)
    (habs : storeGet s.store key = none) :
    (CacheService.del s false key).1 = false ∧
    (CacheService.del s false key).2.store = s.store ∧
    (CacheService.del s false key).2.metrics.deletes = s.metrics.deletes + 1 ∧
    (CacheService.del (CacheService.del s false key).2 false key).1 = false := by
  have hdel := storeDel_absent s.store key habs
  have h1 : CacheService.del s false key =
      (false, { s.bumpDeletes with store := s.store }) := by
    simp [CacheService.del, hc, hcl, hdel]
  refine ⟨by simp [h1], by simp [h1], by simp [h1, CacheState.bumpDeletes], ?_⟩
  rw [h1]
  simp [CacheService.del, hc, hcl, CacheState.bumpDeletes, hdel]

/-- Witness for C4 (amended) at a concrete connected state with an empty
keyspace. -/
theorem C4_del_absent_witness :
    (CacheService.del connectedEmpty false "k").1 = false ∧
    (CacheService.del connectedEmpty false "k").2.store = connectedEmpty.store ∧
    (CacheService.del connectedEmpty false "k").2.metrics.deletes =
      connectedEmpty.metrics.deletes + 1 ∧
    (CacheService.del (CacheService.del connectedEmpty false "k").2 false "k").1 = false :=
  C4_del_absent connectedEmpty "k" rfl rfl rfl

/-! ## Buffer.from(s).toString('base64')

The key generators `songSearch` and `lastfmArtist` encode a free-text
identifier with `Buffer.from(text).toString('base64')`: UTF-8 bytes,
then base64.  Both stages are injective left-total encodings, proved so
below.
-/

/-- UTF-8 encoding of a single code point. -/
def utf8EncodeChar (n : Nat) : List Nat :=
  if n < 128 then [n]
  else if n < 2048 then [192 + n / 64, 128 + n % 64]
  else if n < 65536 then [224 + n / 4096, 128 + n / 64 % 64, 128 + n % 64]
  else [240 + n / 262144, 128 + n / 4096 % 64, 128 + n / 64 % 64, 128 + n % 64]

/-- UTF-8 byte sequence of a string (`Buffer.from(s)`). -/
def utf8Encode (s : String) : List Nat :=
  s.data.flatMap (fun c => utf8EncodeChar c.toNat)

theorem utf8EncodeChar_ne_nil (n : Nat) : utf8EncodeChar n ≠ [] := by
  unfold utf8EncodeChar
  split_ifs <;> simp

theorem utf8EncodeChar_lt_256 (n : Nat) (hn : n < 1114112) :
    ∀ x ∈ utf8EncodeChar n, x < 256 := by
  intro x hx
  unfold utf8EncodeChar at hx
  split_ifs at hx with h1 h2 h3
  · simp only [List.mem_singleton] at hx
    omega
  · simp only [List.mem_cons, List.mem_singleton, List.not_mem_nil, or_false] at hx
    rcases hx with rfl | rfl <;> omega
  · simp only [List.mem_cons, List.mem_singleton, List.not_mem_nil, or_false] at hx
    rcases hx with rfl | rfl | rfl <;> omega
  · simp only [List.mem_cons, List.mem_singleton, List.not_mem_nil, or_false] at hx
    rcases hx with rfl | rfl | rfl | rfl <;> omega

theorem utf8EncodeChar_append_inj {a b : Nat} {ra rb : List Nat}
    (ha : a < 1114112) (hb : b < 1114112)
    (h : utf8EncodeChar a ++ ra = utf8EncodeChar b ++ rb) : a = b ∧ ra = rb := by
  unfold utf8EncodeChar at h
  split_ifs at h <;>
    simp only [List.cons_append, List.nil_append, List.cons.injEq] at h <;>
    first
      | exact absurd h.1 (by omega)
      | exact ⟨by omega, h.2⟩
      | exact ⟨by omega, h.2.2⟩
      | exact ⟨by omega, h.2.2.2⟩
      | exact ⟨by omega, h.2.2.2.2⟩

theorem utf8EncodeList_inj (l1 : List Char) :
    ∀ l2 : List Char,
      l1.flatMap (fun c => utf8EncodeChar c.toNat) =
        l2.flatMap (fun c => utf8EncodeChar c.toNat) →
      l1 = l2 := by
  induction l1 with
  | nil =>
    intro l2 h
    cases l2 with
    | nil => rfl
    | cons d ds =>
      exfalso
      simp only [List.flatMap_nil, List.flatMap_cons] at h
      exact utf8EncodeChar_ne_nil d.toNat (List.append_eq_nil.mp h.symm).1
  | cons c cs ih =>
    intro l2 h
    cases l2 with
    | nil =>
      exfalso
      simp only [List.flatMap_nil, List.flatMap_cons] at h
      exact utf8EncodeChar_ne_nil c.toNat (List.append_eq_nil.mp h).1
    | cons d ds =>
      simp only [List.flatMap_cons] at h
      obtain ⟨he, ht⟩ :=
        utf8EncodeChar_append_inj (charToNat_lt c) (charToNat_lt d) h
      rw [charToNat_inj he, ih ds ht]

theorem utf8Encode_inj {s1 s2 : String} (h : utf8Encode s1 = utf8Encode s2) :
    s1 = s2 := by
  rcases s1 with ⟨l1⟩
  rcases s2 with ⟨l2⟩
  exact congrArg String.mk (utf8EncodeList_inj l1 l2 h)

theorem utf8Encode_lt_256 (s : String) : ∀ x ∈ utf8Encode s, x < 256 := by
  intro x hx
  simp only [utf8Encode, List.mem_flatMap] at hx
  obtain ⟨c, _, hcx⟩ := hx
  exact utf8EncodeChar_lt_256 c.toNat (charToNat_lt c) x hcx

/-- The base64 alphabet. -/
def b64alphabet : List Char :=
  "ABCDEFGHIJKLMNOPQRSTUVWXYZabcdefghijklmnopqrstuvwxyz0123456789+/".data

def b64char (n : Nat) : Char := b64alphabet.getD n '?'

/-- Standard base64 of a byte sequence, with `=` padding. -/
def b64encode : List Nat → List Char
  | [] => []
  | [a] => [b64char (a / 4), b64char (a % 4 * 16), '=', '=']
  | [a, b] => [b64char (a / 4), b64char (a % 4 * 16 + b / 16), b64char (b % 16 * 4), '=']
  | a :: b :: c :: rest =>
      b64char (a / 4) :: b64char (a % 4 * 16 + b / 16) :: b64char (b % 16 * 4 + c / 64) ::
        b64char (c % 64) :: b64encode rest

/-- `Buffer.from(s).toString('base64')`. -/
def jsBase64 (s : String) : String :=
  String.mk (b64encode (utf8Encode s))

theorem b64char_inj_lt : ∀ m < 64, ∀ n < 64, b64char m = b64char n → m = n := by decide

theorem b64char_of_ge (n : Nat) (h : 64 ≤ n) : b64char n = '?' := by
  have hlen : b64alphabet.length = 64 := by decide
  unfold b64char
  exact List.getD_eq_default _ _ (hlen ▸ h)

theorem b64char_ne_pad (n : Nat) : b64char n ≠ '=' := by
  by_cases h : n < 64
  · revert h
    revert n
    decide
  · rw [b64char_of_ge n (Nat.le_of_not_lt h)]
    decide

theorem b64char_ne_colon (n : Nat) : b64char n ≠ ':' := by
  by_cases h : n < 64
  · revert h
    revert n
    decide
  · rw [b64char_of_ge n (Nat.le_of_not_lt h)]
    decide

theorem b64encode_inj :
    ∀ as bs : List Nat, (∀ x ∈ as, x < 256) → (∀ x ∈ bs, x < 256) →
      b64encode as = b64encode bs → as = bs
  | [], [], _, _, _ => rfl
  | [], [_], _, _, h => by simp [b64encode] at h
  | [], [_, _], _, _, h => by simp [b64encode] at h
  | [], _ :: _ :: _ :: _, _, _, h => by simp [b64encode] at h
  | [_], [], _, _, h => by simp [b64encode] at h
  | [_, _], [], _, _, h => by simp [b64encode] at h
  | _ :: _ :: _ :: _, [], _, _, h => by simp [b64encode] at h
  | [a], [b], ha, hb, h => by
    have ha' := ha a (by simp)
    have hb' := hb b (by simp)
    simp only [b64encode, List.cons.injEq, and_true] at h
    have e1 := b64char_inj_lt _ (by omega) _ (by omega) h.1
    have e2 := b64char_inj_lt _ (by omega) _ (by omega) h.2
    have : a = b := by omega
    rw [this]
  | [a], [b1, b2], _, _, h => by
    simp only [b64encode, List.cons.injEq, and_true] at h
    exact absurd h.2.2.symm (b64char_ne_pad _)
  | [a], b1 :: b2 :: b3 :: rest, _, _, h => by
    simp only [b64encode, List.cons.injEq] at h
    exact absurd h.2.2.1.symm (b64char_ne_pad _)
  | [a1, a2], [b], _, _, h => by
    simp only [b64encode, List.cons.injEq, and_true] at h
    exact absurd h.2.2 (b64char_ne_pad _)
  | [a1, a2], [b1, b2], ha, hb, h => by
    have ha1 := ha a1 (by simp)
    have ha2 := ha a2 (by simp)
    have hb1 := hb b1 (by simp)
    have hb2 := hb b2 (by simp)
    simp only [b64encode, List.cons.injEq, and_true] at h
    have e1 := b64char_inj_lt _ (by omega) _ (by omega) h.1
    have e2 := b64char_inj_lt _ (by omega) _ (by omega) h.2.1
    have e3 := b64char_inj_lt _ (by omega) _ (by omega) h.2.2
    have h12 : a1 = b1 ∧ a2 = b2 := by omega
    rw [h12.1, h12.2]
  | [a1, a2], b1 :: b2 :: b3 :: rest, _, _, h => by
    simp only [b64encode, List.cons.injEq] at h
    exact absurd h.2.2.2.1.symm (b64char_ne_pad _)
  | a1 :: a2 :: a3 :: rest, [b], _, _, h => by
    simp only [b64encode, List.cons.injEq] at h
    exact absurd h.2.2.1 (b64char_ne_pad _)
  | a1 :: a2 :: a3 :: rest, [b1, b2], _, _, h => by
    simp only [b64encode, List.cons.injEq] at h
    exact absurd h.2.2.2.1 (b64char_ne_pad _)
  | a1 :: a2 :: a3 :: ra, b1 :: b2 :: b3 :: rb, ha, hb, h => by
    have ha1 := ha a1 (by simp)
    have ha2 := ha a2 (by simp)
    have ha3 := ha a3 (by simp)
    have hb1 := hb b1 (by simp)
    have hb2 := hb b2 (by simp)
    have hb3 := hb b3 (by simp)
    simp only [b64encode, List.cons.injEq] at h
    have e1 := b64char_inj_lt _ (by omega) _ (by omega) h.1
    have e2 := b64char_inj_lt _ (by omega) _ (by omega) h.2.1
    have e3 := b64char_inj_lt _ (by omega) _ (by omega) h.2.2.1
    have e4 := b64char_inj_lt _ (by omega) _ (by omega) h.2.2.2.1
    have habc : a1 = b1 ∧ a2 = b2 ∧ a3 = b3 := by omega
    have htail := b64encode_inj ra rb
      (fun x hx => ha x (by simp [hx]))
      (fun x hx => hb x (by simp [hx]))
      h.2.2.2.2
    rw [habc.1, habc.2.1, habc.2.2, htail]

theorem b64encode_no_colon : ∀ as : List Nat, ':' ∉ b64encode as
  | [] => by simp [b64encode]
  | [a] => by
    simp only [b64encode, List.mem_cons, List.not_mem_nil, or_false]
    rintro (h | h | h | h) <;>
      first
        | exact b64char_ne_colon _ h.symm
        | simp_all
  | [a, b] => by
    simp only [b64encode, List.mem_cons, List.not_mem_nil, or_false]
    rintro (h | h | h | h) <;>
      first
        | exact b64char_ne_colon _ h.symm
        | simp_all
  | a :: b :: c :: rest => by
    simp only [b64encode, List.mem_cons]
    rintro (h | h | h | h | h) <;>
      first
        | exact b64char_ne_colon _ h.symm
        | exact b64encode_no_colon rest h

theorem jsBase64_inj {s1 s2 : String} (h : jsBase64 s1 = jsBase64 s2) : s1 = s2 := by
  have h' : b64encode (utf8Encode s1) = b64encode (utf8Encode s2) :=
    congrArg String.data h
  exact utf8Encode_inj
    (b64encode_inj _ _ (utf8Encode_lt_256 s1) (utf8Encode_lt_256 s2) h')

theorem jsBase64_no_colon (s : String) : ':' ∉ (jsBase64 s).data := by
  simpa [jsBase64] using b64encode_no_colon (utf8Encode s)

/-! ## Response-caching middleware (cacheMiddleware) -/

/-- JavaScript truthiness of a parsed JSON value (`if (cachedData)`). -/
def truthyJ : JVal → Bool
  | JVal.jnull => false
  | JVal.jbool b => b
  | JVal.jnum n => decide (n ≠ 0)
  | JVal.jstr s => decide (s ≠ "")
  | JVal.jarr _ => true
  | JVal.jobj _ => true

/-- The parts of an Express request the middleware reads: the HTTP
method, the original URL, the authenticated user id (if any; a falsy id
is modelled as `none`), and `JSON.stringify(req.query)`. -/
structure Request where
  method : String
  url : String
  userId : Option String
  queryJson : String

/-- Default cache-key computation of the middleware:
`keyPrefix:userId:base64(path + query)` with `anonymous` for missing
users. -/
def defaultCacheKey (keyPrefix : String) (req : Request) : String :=
  keyPrefix ++ ":" ++ req.userId.getD "anonymous" ++ ":" ++
    jsBase64 (req.url ++ req.queryJson)

/-- Default excluded methods of `cacheMiddleware`. -/
def defaultExcludeMethods : List String := ["POST", "PUT", "DELETE", "PATCH"]

/-- Outcome of one request through the middleware: the JSON body sent to
the caller, whether it was served from cache, and the final service
state. -/
structure MWResult where
  body : JVal
  fromCache : Bool
  state : CacheState

/-- One request through `cacheMiddleware(options)` with the default key
generator: excluded methods skip caching entirely; otherwise the computed
key is looked up and a truthy cached value is served as-is; otherwise the
handler runs (its outcome modelled by `handlerStatus`, `handlerBody`) and
the patched `res.json` stores the body via `cacheService.set` — only if
the status is 2xx — before forwarding the body unchanged (a rejected
`set` promise is caught and only logged). -/
def cacheMiddleware (ttl : Nat) (keyPrefix : String) (excludeMethods : List String)
    (req : Request) (handlerStatus : Nat) (handlerBody : JVal)
    (s : CacheState) (getFail setFail : Bool) : MWResult :=
  if excludeMethods.contains req.method then
    MWResult.mk handlerBody false s
  else
    let key := defaultCacheKey keyPrefix req
    let res := CacheService.get s getFail key
    match res.1 with
    | some v =>
        if truthyJ v then MWResult.mk v true res.2
        else
          if 200 ≤ handlerStatus ∧ handlerStatus < 300 then
            MWResult.mk handlerBody false
              (CacheService.set res.2 setFail key handlerBody ttl).2
          else MWResult.mk handlerBody false res.2
    | none =>
        if 200 ≤ handlerStatus ∧ handlerStatus < 300 then
          MWResult.mk handlerBody false
            (CacheService.set res.2 setFail key handlerBody ttl).2
        else MWResult.mk handlerBody false res.2

theorem get_none_of_storeGet_none (s : CacheState) (fail : Bool) (key : String)
    (h : storeGet s.store key = none) :
    (CacheService.get s fail key).1 = none := by
  by_cases h1 : (!s.isConnected || !s.hasClient) = true
  · simp [CacheService.get, h1]
  · by_cases h2 : fail = true <;> simp [CacheService.get, h1, h2, h]

/-! ## Claim C5 — middleware population on miss -/

/-- Claim C5: for every non-excluded request whose computed key misses
the cache (the key is absent from the keyspace), the body delivered to
the caller equals the handler's output unchanged — whatever the
connectivity and whether the cache population succeeds or fails — and,
with the store connected and healthy, the handler's output is stored
under the computed key with the configured TTL if and only if the
handler's status is a 2xx success. -/
theorem C5_middleware_miss (ttl : Nat) (keyPrefix : String) (req : Request)
    (st : Nat) (body : JVal) (s : CacheState) (getFail setFail : Bool)
    (hexc : defaultExcludeMethods.contains req.method = false)
    (hmiss : storeGet s.store (defaultCacheKey keyPrefix req) = none) :
    (cacheMiddleware ttl keyPrefix defaultExcludeMethods req st body s
        getFail setFail).body = body ∧
    (s.isConnected = true → s.hasClient = true → getFail = false → setFail = false →
      (storeGetEntry
          (cacheMiddleware ttl keyPrefix defaultExcludeMethods req st body s
            getFail setFail).state.store (defaultCacheKey keyPrefix req) =
        some (Entry.mk (defaultCacheKey keyPrefix req) body.stringify (some ttl)) ↔
        (200 ≤ st ∧ st < 300))) := by
  have hnone := get_none_of_storeGet_none s getFail (defaultCacheKey keyPrefix req) hmiss
  constructor
  · unfold cacheMiddleware
    rw [if_neg (by simpa using hexc)]
    dsimp only
    rw [hnone]
    dsimp only
    split <;> rfl
  · intro hc hcl hgf hsf
    subst hgf
    subst hsf
    have hget : CacheService.get s false (defaultCacheKey keyPrefix req) =
        (none, s.bumpMisses) := by
      simp [CacheService.get, hc, hcl, hmiss]
    have hflags : (s.bumpMisses).isConnected = true ∧ (s.bumpMisses).hasClient = true ∧
        (s.bumpMisses).store = s.store := ⟨by simp [CacheState.bumpMisses, hc],
      by simp [CacheState.bumpMisses, hcl], rfl⟩
    unfold cacheMiddleware
    rw [if_neg (by simpa using hexc)]
    dsimp only
    rw [hget]
    dsimp only
    by_cases hst : 200 ≤ st ∧ st < 300
    · rw [if_pos hst]
      simp only [CacheService.set, hflags.1, hflags.2.1, Bool.not_true,
        Bool.or_self, Bool.false_or]
      simp [CacheState.bumpSets, hflags.2.2, storeGetEntry_setEx_same, hst]
    · rw [if_neg hst]
      simp only [CacheState.bumpMisses]
      constructor
      · intro hsome
        exfalso
        have : storeGetEntry s.store (defaultCacheKey keyPrefix req) = none := by
          simpa [storeGet, Option.map_eq_none] using hmiss
        rw [this] at hsome
        exact Option.noConfusion hsome
      · intro hcon
        exact absurd hcon hst

/-- Fixture request for the C5 witness. -/
def req0 : Request :=
  Request.mk "GET" "/api/playlists" (some "u1") "\x7b\x7d"

/-- Witness for C5: a GET request on an empty keyspace with a 200
handler outcome stores the body and forwards it unchanged. -/
theorem C5_middleware_miss_witness :
    (cacheMiddleware 900 "api" defaultExcludeMethods req0 200 (JVal.jnum 7)
        connectedEmpty false false).body = JVal.jnum 7 ∧
    storeGetEntry
        (cacheMiddleware 900 "api" defaultExcludeMethods req0 200 (JVal.jnum 7)
          connectedEmpty false false).state.store (defaultCacheKey "api" req0) =
      some (Entry.mk (defaultCacheKey "api" req0) (JVal.jnum 7).stringify (some 900)) :=
  ⟨(C5_middleware_miss 900 "api" req0 200 (JVal.jnum 7) connectedEmpty false false
      (by decide) rfl).1,
    ((C5_middleware_miss 900 "api" req0 200 (JVal.jnum 7) connectedEmpty false false
      (by decide) rfl).2 rfl rfl rfl rfl).mpr (by omega)⟩

/-! ## Claim C6 — placeholder invalidation scenario -/

/-- Keyspace of the C6 scenario: the playlist `p1`, its songs list, and
an unrelated playlist `p2`. -/
def playlistStore : Store :=
  [Entry.mk "playlist:p1" "A" (some 900),
    Entry.mk "playlist:p1:songs" "B" (some 600),
    Entry.mk "playlist:p2" "C" (some 900)]

/-- Connected, healthy state over the C6 scenario keyspace. -/
def playlistState : CacheState :=
  CacheState.mk true true Metrics.init playlistStore

/-- Counterexample to claim C6 as stated: the pattern resolves to
`playlist:p1:*` as claimed, but the Redis glob `playlist:p1:*` requires
the literal prefix `playlist:p1:`, so the key `playlist:p1` itself does
*not* match and survives the invalidation — the claim's "removes exactly
the keys playlist:p1 and playlist:p1:songs" fails at `playlist:p1`. -/
theorem C6_counterexample :
    resolvePattern "playlist::id:*" none (some "p1") none = "playlist:p1:*" ∧
    storeGet (CacheService.invalidate playlistState false false "playlist:p1:*").2.store
      "playlist:p1" = some "A" :=
  ⟨rfl, rfl⟩

/-- Claim C6 (amended): resolving the invalidation pattern
`playlist::id:*` with request parameter `id = p1` yields `playlist:p1:*`,
and running the invalidation against a keyspace containing
`playlist:p1`, `playlist:p1:songs` and `playlist:p2` removes exactly the
key `playlist:p1:songs` (one key deleted), leaving both `playlist:p1`
and `playlist:p2` untouched. -/
theorem C6_placeholder_invalidation :
    resolvePattern "playlist::id:*" none (some "p1") none = "playlist:p1:*" ∧
    (CacheService.invalidate playlistState false false "playlist:p1:*").1 = 1 ∧
    storeGet (CacheService.invalidate playlistState false false "playlist:p1:*").2.store
      "playlist:p1" = some "A" ∧
    storeGet (CacheService.invalidate playlistState false false "playlist:p1:*").2.store
      "playlist:p1:songs" = none ∧
    storeGet (CacheService.invalidate playlistState false false "playlist:p1:*").2.store
      "playlist:p2" = some "C" :=
  ⟨rfl, rfl, rfl, rfl, rfl⟩

/-! ## Claim C9 — flush refused in production -/

/-- Status and `success` field of an administrative route response. -/
structure RouteResponse where
  status : Nat
  success : Bool
deriving DecidableEq, Repr

/-- The `DELETE /api/cache/flush` handler of routes/cache.js:
refuses with 403 when `process.env.NODE_ENV === 'production'`, otherwise
awaits `cacheService.flush()` and answers 200 or 500.  The last component
records whether `cacheService.flush` was invoked. -/
def flushRoute (nodeEnv : String) (s : CacheState) (fail : Bool) :
    RouteResponse × CacheState × Bool :=
  if nodeEnv = "production" then (RouteResponse.mk 403 false, s, false)
  else
    let res := CacheService.flush s fail
    if res.1 then (RouteResponse.mk 200 true, res.2, true)
    else (RouteResponse.mk 500 false, res.2, true)

/-- Claim C9: in a production-designated environment the flush-all
command is refused with an error response — status 403 (not a 2xx
success), `success:false` — without invoking the cache flush and without
touching the cache state; outside production the same request does invoke
the flush. -/
theorem C9_flush_production_refused (env : String) (s : CacheState) (fail : Bool) :
    (env = "production" →
      (flushRoute env s fail).1.status = 403 ∧
      ¬(200 ≤ (flushRoute env s fail).1.status ∧ (flushRoute env s fail).1.status < 300) ∧
      (flushRoute env s fail).1.success = false ∧
      (flushRoute env s fail).2.2 = false ∧
      (flushRoute env s fail).2.1 = s) ∧
    (env ≠ "production" → (flushRoute env s fail).2.2 = true) := by
  constructor
  · intro h
    simp [flushRoute, h]
  · intro h
    by_cases hf : (CacheService.flush s fail).1 = true <;> simp [flushRoute, h, hf]

/-- Witness for C9 in production and in development. -/
theorem C9_flush_production_refused_witness :
    (flushRoute "production" connectedOne false).1.status = 403 ∧
    (flushRoute "production" connectedOne false).2.2 = false ∧
    (flushRoute "development" connectedOne false).2.2 = true :=
  ⟨((C9_flush_production_refused "production" connectedOne false).1 rfl).1,
    ((C9_flush_production_refused "production" connectedOne false).1 rfl).2.2.2.1,
    (C9_flush_production_refused "development" connectedOne false).2 (by decide)⟩

/-! ## Claim C8 — metrics monotonicity -/

/-- Pointwise order on the five named counters. -/
def Metrics.counterLe (m1 m2 : Metrics) : Prop :=
  m1.hits ≤ m2.hits ∧ m1.misses ≤ m2.misses ∧ m1.sets ≤ m2.sets ∧
    m1.deletes ≤ m2.deletes ∧ m1.errors ≤ m2.errors

theorem get_metrics_mono (s : CacheState) (fail : Bool) (key : String) :
    Metrics.counterLe s.metrics ((CacheService.get s fail key).2).metrics := by
  unfold CacheService.get
  split
  · simp [Metrics.counterLe]
  · split
    · simp [Metrics.counterLe, CacheState.bumpErrors]
    · split
      · split
        · split
          · simp [Metrics.counterLe, CacheState.bumpHits]
          · simp [Metrics.counterLe, CacheState.bumpHits, CacheState.bumpErrors]
        · simp [Metrics.counterLe, CacheState.bumpMisses]
      · simp [Metrics.counterLe, CacheState.bumpMisses]

theorem set_metrics_mono (s : CacheState) (fail : Bool) (key : String) (v : JVal)
    (ttl : Nat) :
    Metrics.counterLe s.metrics ((CacheService.set s fail key v ttl).2).metrics := by
  unfold CacheService.set
  split
  · simp [Metrics.counterLe]
  · split
    · simp [Metrics.counterLe, CacheState.bumpErrors]
    · simp [Metrics.counterLe, CacheState.bumpSets]

theorem setWithExpiry_metrics_mono (s : CacheState) (fail : Bool) (key : String)
    (v : JVal) :
    Metrics.counterLe s.metrics ((CacheService.setWithExpiry s fail key v).2).metrics := by
  unfold CacheService.setWithExpiry
  split
  · simp [Metrics.counterLe]
  · split
    · simp [Metrics.counterLe, CacheState.bumpErrors]
    · simp [Metrics.counterLe, CacheState.bumpSets]

theorem del_metrics_mono (s : CacheState) (fail : Bool) (key : String) :
    Metrics.counterLe s.metrics ((CacheService.del s fail key).2).metrics := by
  unfold CacheService.del
  split
  · simp [Metrics.counterLe]
  · split
    · simp [Metrics.counterLe, CacheState.bumpErrors]
    · simp [Metrics.counterLe, CacheState.bumpDeletes]

theorem invalidate_metrics_mono (s : CacheState) (fk fd : Bool) (pat : String) :
    Metrics.counterLe s.metrics ((CacheService.invalidate s fk fd pat).2).metrics := by
  unfold CacheService.invalidate
  dsimp only
  split
  · simp [Metrics.counterLe]
  · split
    · simp [Metrics.counterLe, CacheState.bumpErrors]
    · split
      · simp [Metrics.counterLe]
      · split
        · simp [Metrics.counterLe, CacheState.bumpErrors]
        · refine ⟨le_refl _, le_refl _, le_refl _, Nat.le_add_right _ _, le_refl _⟩

theorem existsKey_metrics_mono (s : CacheState) (fail : Bool) (key : String) :
    Metrics.counterLe s.metrics ((CacheService.existsKey s fail key).2).metrics := by
  unfold CacheService.existsKey
  split
  · simp [Metrics.counterLe]
  · split
    · simp [Metrics.counterLe, CacheState.bumpErrors]
    · simp [Metrics.counterLe]

theorem getStats_metrics_mono (s : CacheState) (fail : Bool) :
    Metrics.counterLe s.metrics ((CacheService.getStats s fail).2).metrics := by
  unfold CacheService.getStats
  split
  · simp [Metrics.counterLe]
  · split <;> simp [Metrics.counterLe]

theorem flush_metrics_mono (s : CacheState) (fail : Bool) :
    Metrics.counterLe s.metrics ((CacheService.flush s fail).2).metrics := by
  unfold CacheService.flush
  split
  · simp [Metrics.counterLe]
  · split <;> simp [Metrics.counterLe]

/-- Claim C8: the counters hits, misses, sets, deletes and errors are
monotonic — each Cache Service operation (`get`, `set`, `setWithExpiry`,
`del`, `invalidate`, `exists`, `getStats`, `flush`) leaves every counter
greater than or equal to its previous value, and only the explicit
`resetMetrics` operation sets them back to zero. -/
theorem C8_metrics_monotone (s : CacheState) (fail fk fd : Bool)
    (key pat : String) (v : JVal) (ttl : Nat) :
    Metrics.counterLe s.metrics ((CacheService.get s fail key).2).metrics ∧
    Metrics.counterLe s.metrics ((CacheService.set s fail key v ttl).2).metrics ∧
    Metrics.counterLe s.metrics ((CacheService.setWithExpiry s fail key v).2).metrics ∧
    Metrics.counterLe s.metrics ((CacheService.del s fail key).2).metrics ∧
    Metrics.counterLe s.metrics ((CacheService.invalidate s fk fd pat).2).metrics ∧
    Metrics.counterLe s.metrics ((CacheService.existsKey s fail key).2).metrics ∧
    Metrics.counterLe s.metrics ((CacheService.getStats s fail).2).metrics ∧
    Metrics.counterLe s.metrics ((CacheService.flush s fail).2).metrics ∧
    (CacheService.resetMetrics s).metrics = Metrics.init :=
  ⟨get_metrics_mono s fail key, set_metrics_mono s fail key v ttl,
    setWithExpiry_metrics_mono s fail key v, del_metrics_mono s fail key,
    invalidate_metrics_mono s fk fd pat, existsKey_metrics_mono s fail key,
    getStats_metrics_mono s fail, flush_metrics_mono s fail, rfl⟩

/-! ## Key Namespace

The `this.keys` object of the CacheService, with every identifier taken
as the string it is interpolated as (`page`/`limit` default to the
numbers 1 and 20 at the call sites, interpolated as their decimal
strings). -/

namespace CacheKeys

def user (userId : String) : String := "user:" ++ userId

def userPlaylists (userId : String) : String := "user:" ++ userId ++ ":playlists"

def playlist (playlistId : String) : String := "playlist:" ++ playlistId

def playlistSongs (playlistId : String) : String := "playlist:" ++ playlistId ++ ":songs"

def playlistCollaborators (playlistId : String) : String :=
  "playlist:" ++ playlistId ++ ":collaborators"

def publicPlaylists (page limit : String) : String :=
  "public:playlists:" ++ page ++ ":" ++ limit

def songSearch (playlistId query : String) : String :=
  "search:" ++ playlistId ++ ":" ++ jsBase64 query

def userAuth (userId : String) : String := "auth:" ++ userId

def spotifyTrack (trackId : String) : String := "spotify:track:" ++ trackId

def lastfmArtist (artistName : String) : String :=
  "lastfm:artist:" ++ jsBase64 artistName

end CacheKeys

/-! ### String splitting lemmas for key injectivity -/

theorem prefixCancel {p a b : String} (h : p ++ a = p ++ b) : a = b := by
  have hd : p.data ++ a.data = p.data ++ b.data := by
    simpa [dataAppend] using congrArg String.data h
  exact stringDataInj (List.append_cancel_left hd)

theorem affixCancel {p q a b : String} (h : p ++ a ++ q = p ++ b ++ q) : a = b := by
  have hd : p.data ++ a.data ++ q.data = p.data ++ b.data ++ q.data := by
    simpa [dataAppend] using congrArg String.data h
  exact stringDataInj (List.append_cancel_left (List.append_cancel_right hd))

theorem colon_split_first {x1 y1 x2 y2 : List Char}
    (h1 : ':' ∉ x1) (h2 : ':' ∉ x2)
    (h : x1 ++ ':' :: y1 = x2 ++ ':' :: y2) : x1 = x2 ∧ y1 = y2 := by
  induction x1 generalizing x2 with
  | nil =>
    cases x2 with
    | nil => simpa using h
    | cons d ds =>
      simp only [List.nil_append, List.cons_append, List.cons.injEq] at h
      exfalso
      apply h2
      rw [← h.1]
      exact List.mem_cons_self _ _
  | cons c cs ih =>
    cases x2 with
    | nil =>
      simp only [List.nil_append, List.cons_append, List.cons.injEq] at h
      exfalso
      apply h1
      rw [h.1]
      exact List.mem_cons_self _ _
    | cons d ds =>
      simp only [List.cons_append, List.cons.injEq] at h
      have hrest := ih (fun hm => h1 (List.mem_cons_of_mem _ hm))
        (fun hm => h2 (List.mem_cons_of_mem _ hm)) h.2
      exact ⟨by rw [h.1, hrest.1], hrest.2⟩

theorem colon_split_last {p1 b1 p2 b2 : List Char}
    (hb1 : ':' ∉ b1) (hb2 : ':' ∉ b2)
    (h : p1 ++ ':' :: b1 = p2 ++ ':' :: b2) : p1 = p2 ∧ b1 = b2 := by
  have hr := congrArg List.reverse h
  simp only [List.reverse_append, List.reverse_cons, List.append_assoc,
    List.singleton_append] at hr
  have hsplit := colon_split_first (fun hm => hb1 (List.mem_reverse.mp hm))
    (fun hm => hb2 (List.mem_reverse.mp hm)) hr
  constructor
  · have := congrArg List.reverse hsplit.2
    simpa using this
  · have := congrArg List.reverse hsplit.1
    simpa using this

/-! ## Claim C7 — injectivity of the key generators -/

/-- Counterexample to claim C7 as stated: the `publicPlaylists` generator
joins its two identifiers with `:`, so the distinct tuples
`("1:2", "3")` and `("1", "2:3")` produce the same key
`public:playlists:1:2:3`. -/
theorem C7_counterexample :
    CacheKeys.publicPlaylists "1:2" "3" = CacheKeys.publicPlaylists "1" "2:3" ∧
    ¬(("1:2" : String) = "1" ∧ ("3" : String) = "2:3") := by
  constructor
  · rfl
  · rintro ⟨h, _⟩
    exact absurd h (by decide)

/-- Claim C7 (amended): every key generator of the `keys` namespace is
injective on identifier tuples over strings, except `publicPlaylists`,
whose two identifiers are joined with `:` and can collide when the page
component contains `:`; restricted to page components without `:` (in
particular the numeric pages actually interpolated), `publicPlaylists`
is injective as well. -/
theorem C7_keys_injective :
    (∀ a b : String, CacheKeys.user a = CacheKeys.user b → a = b) ∧
    (∀ a b : String, CacheKeys.userPlaylists a = CacheKeys.userPlaylists b → a = b) ∧
    (∀ a b : String, CacheKeys.playlist a = CacheKeys.playlist b → a = b) ∧
    (∀ a b : String, CacheKeys.playlistSongs a = CacheKeys.playlistSongs b → a = b) ∧
    (∀ a b : String,
      CacheKeys.playlistCollaborators a = CacheKeys.playlistCollaborators b → a = b) ∧
    (∀ p1 l1 p2 l2 : String, ':' ∉ p1.data → ':' ∉ p2.data →
      CacheKeys.publicPlaylists p1 l1 = CacheKeys.publicPlaylists p2 l2 →
      p1 = p2 ∧ l1 = l2) ∧
    (∀ i1 q1 i2 q2 : String,
      CacheKeys.songSearch i1 q1 = CacheKeys.songSearch i2 q2 → i1 = i2 ∧ q1 = q2) ∧
    (∀ a b : String, CacheKeys.userAuth a = CacheKeys.userAuth b → a = b) ∧
    (∀ a b : String, CacheKeys.spotifyTrack a = CacheKeys.spotifyTrack b → a = b) ∧
    (∀ a b : String, CacheKeys.lastfmArtist a = CacheKeys.lastfmArtist b → a = b) := by
  refine ⟨fun a b h => prefixCancel h,
    fun a b h => affixCancel h,
    fun a b h => prefixCancel h,
    fun a b h => affixCancel h,
    fun a b h => affixCancel h,
    ?_, ?_,
    fun a b h => prefixCancel h,
    fun a b h => prefixCancel h,
    fun a b h => jsBase64_inj (prefixCancel h)⟩
  · intro p1 l1 p2 l2 hp1 hp2 h
    have hd := congrArg String.data h
    simp only [CacheKeys.publicPlaylists, dataAppend, dataColon, List.append_assoc,
      List.singleton_append] at hd
    have hd2 := List.append_cancel_left hd
    have hsplit := colon_split_first hp1 hp2 hd2
    exact ⟨stringDataInj hsplit.1, stringDataInj hsplit.2⟩
  · intro i1 q1 i2 q2 h
    have hd := congrArg String.data h
    simp only [CacheKeys.songSearch, dataAppend, dataColon, List.append_assoc,
      List.singleton_append] at hd
    have hd2 := List.append_cancel_left hd
    have hsplit := colon_split_last (jsBase64_no_colon q1) (jsBase64_no_colon q2) hd2
    exact ⟨stringDataInj hsplit.1, jsBase64_inj (stringDataInj hsplit.2)⟩

/-- Witness for C7 (amended) at concrete identifiers. -/
theorem C7_keys_injective_witness :
    (("1" : String) = "1" ∧ ("20" : String) = "20") ∧
    (("p7" : String) = "p7" ∧ ("road trip" : String) = "road trip") :=
  ⟨C7_keys_injective.2.2.2.2.2.1 "1" "20" "1" "20" (by decide) (by decide) rfl,
    C7_keys_injective.2.2.2.2.2.2.1 "p7" "road trip" "p7" "road trip" rfl⟩

/-! ## Claim C10 — exists semantics -/

/-- Claim C10: `exists key` returns `true` exactly when the service is
connected, has a client, the store call does not fail and the store
reports the key present (`EXISTS` equal to 1); it returns `false` when
the key is absent, when disconnected, and when the store call fails — in
the failure case additionally incrementing the error counter, and leaving
the state untouched otherwise.  Being a total function, it never
throws; a `false` result does not distinguish key absence from cache
unavailability. -/
theorem C10_exists_semantics (s : CacheState) (fail : Bool) (key : String) :
    ((CacheService.existsKey s fail key).1 = true ↔
      (s.isConnected = true ∧ s.hasClient = true ∧ fail = false ∧
        storeExistsN s.store key = 1)) ∧
    (s.isConnected = true → s.hasClient = true → fail = true →
      (CacheService.existsKey s fail key).2 = s.bumpErrors) ∧
    (fail = false → (CacheService.existsKey s fail key).2 = s) := by
  unfold CacheService.existsKey
  rcases s with ⟨c, cl, m, st⟩
  cases c <;> cases cl <;> cases fail <;> simp

/-- Witness for C10: concrete failure and success cases. -/
theorem C10_exists_semantics_witness :
    (CacheService.existsKey connectedOne true "k").2 = connectedOne.bumpErrors ∧
    (CacheService.existsKey connectedOne false "k").2 = connectedOne ∧
    (CacheService.existsKey connectedOne false "k").1 = true :=
  ⟨(C10_exists_semantics connectedOne true "k").2.1 rfl rfl rfl,
    (C10_exists_semantics connectedOne false "k").2.2 rfl,
    (C10_exists_semantics connectedOne false "k").1.mpr ⟨rfl, rfl, rfl, rfl⟩⟩

end CollabPlaylist
